import Mathlib

/-!
# Verification of the pbix structural field rewriter

A shallow embedding of the pbix repository's field-rewriting core
(`src/pbix/report.py` and `src/pbix/visual.py`), together with proofs
settling the frozen claims about it.

Modelling conventions:

* JSON documents are modelled by the inductive type `J`.  The layout's
  nested JSON-encoded strings (a visual's `config`, `filters`, `query`,
  `dataTransforms` sub-documents) are modelled by their parsed values, so
  `json.loads`/`json.dumps` round-trips are identities of the model;
  "payload identical" claims are stated as equality of these values.
* The jsonpath-ng operations used by the source are embedded one Lean
  function per path expression, following jsonpath-ng semantics:
  `.k` navigates into key `k` of an object (nothing on other values),
  `.*` yields the values of an object (nothing on arrays or scalars),
  `[?(@.k=='v')]` filters array elements that carry key `k` with value
  exactly the string `v`, `[?(@.k!='v')]` filters array elements that
  carry key `k` with a value different from the string `v` (elements
  without the key match neither), `$..k` collects key-`k` values at the
  node and all its descendants in depth-first order (node first), and
  updates assign only to keys that already exist.
* Python code that raises (`IndexError` from `find(...)[0]`, `KeyError`,
  `ValueError` from `int('')`, iteration over `None`) is modelled by
  functions returning `Option`, with `none` for the raised exception.
* `From` entries of a semantic query are modelled by `FromEntry` records
  `{Name, Entity, Type}` — the exact shape the code itself constructs in
  `_add_from_table` and reads unconditionally in `_prune_from_tables`.
-/

/-- A JSON value.  Numbers are modelled as integers (no claim involves
fractional numbers). -/
inductive J where
  | s (v : String)
  | i (v : Int)
  | b (v : Bool)
  | null
  | arr (l : List J)
  | obj (l : List (String × J))
deriving Repr, Inhabited

namespace J

mutual

/-- Decidable equality of JSON values (the automatic derivation does not
handle the nested lists). -/
def decEq : (a b : J) → Decidable (a = b)
  | .s x, .s y =>
    if h : x = y then isTrue (by rw [h]) else
      isFalse (by intro hh; injection hh; contradiction)
  | .i x, .i y =>
    if h : x = y then isTrue (by rw [h]) else
      isFalse (by intro hh; injection hh; contradiction)
  | .b x, .b y =>
    if h : x = y then isTrue (by rw [h]) else
      isFalse (by intro hh; injection hh; contradiction)
  | .null, .null => isTrue rfl
  | .arr xs, .arr ys =>
    match decEqA xs ys with
    | isTrue h => isTrue (by rw [h])
    | isFalse h => isFalse (by intro hh; injection hh; contradiction)
  | .obj xs, .obj ys =>
    match decEqO xs ys with
    | isTrue h => isTrue (by rw [h])
    | isFalse h => isFalse (by intro hh; injection hh; contradiction)
  | .s _, .i _ => isFalse (by intro hh; cases hh)
  | .s _, .b _ => isFalse (by intro hh; cases hh)
  | .s _, .null => isFalse (by intro hh; cases hh)
  | .s _, .arr _ => isFalse (by intro hh; cases hh)
  | .s _, .obj _ => isFalse (by intro hh; cases hh)
  | .i _, .s _ => isFalse (by intro hh; cases hh)
  | .i _, .b _ => isFalse (by intro hh; cases hh)
  | .i _, .null => isFalse (by intro hh; cases hh)
  | .i _, .arr _ => isFalse (by intro hh; cases hh)
  | .i _, .obj _ => isFalse (by intro hh; cases hh)
  | .b _, .s _ => isFalse (by intro hh; cases hh)
  | .b _, .i _ => isFalse (by intro hh; cases hh)
  | .b _, .null => isFalse (by intro hh; cases hh)
  | .b _, .arr _ => isFalse (by intro hh; cases hh)
  | .b _, .obj _ => isFalse (by intro hh; cases hh)
  | .null, .s _ => isFalse (by intro hh; cases hh)
  | .null, .i _ => isFalse (by intro hh; cases hh)
  | .null, .b _ => isFalse (by intro hh; cases hh)
  | .null, .arr _ => isFalse (by intro hh; cases hh)
  | .null, .obj _ => isFalse (by intro hh; cases hh)
  | .arr _, .s _ => isFalse (by intro hh; cases hh)
  | .arr _, .i _ => isFalse (by intro hh; cases hh)
  | .arr _, .b _ => isFalse (by intro hh; cases hh)
  | .arr _, .null => isFalse (by intro hh; cases hh)
  | .arr _, .obj _ => isFalse (by intro hh; cases hh)
  | .obj _, .s _ => isFalse (by intro hh; cases hh)
  | .obj _, .i _ => isFalse (by intro hh; cases hh)
  | .obj _, .b _ => isFalse (by intro hh; cases hh)
  | .obj _, .null => isFalse (by intro hh; cases hh)
  | .obj _, .arr _ => isFalse (by intro hh; cases hh)
termination_by structural a => a

/-- Decidable equality of JSON arrays. -/
def decEqA : (xs ys : List J) → Decidable (xs = ys)
  | [], [] => isTrue rfl
  | [], _ :: _ => isFalse (by intro hh; cases hh)
  | _ :: _, [] => isFalse (by intro hh; cases hh)
  | x :: xs, y :: ys =>
    match decEq x y, decEqA xs ys with
    | isTrue h1, isTrue h2 => isTrue (by rw [h1, h2])
    | isFalse h1, _ =>
      isFalse (by intro hh; injection hh; contradiction)
    | _, isFalse h2 =>
      isFalse (by intro hh; injection hh; contradiction)
termination_by structural xs => xs

/-- Decidable equality of JSON object member lists. -/
def decEqO : (xs ys : List (String × J)) → Decidable (xs = ys)
  | [], [] => isTrue rfl
  | [], _ :: _ => isFalse (by intro hh; cases hh)
  | _ :: _, [] => isFalse (by intro hh; cases hh)
  | (k1, v1) :: xs, (k2, v2) :: ys =>
    if hk : k1 = k2 then
      match decEq v1 v2, decEqO xs ys with
      | isTrue h1, isTrue h2 => isTrue (by rw [hk, h1, h2])
      | isFalse h1, _ =>
        isFalse (by
          intro hh; injection hh with hp ht
          exact h1 (congrArg Prod.snd hp))
      | _, isFalse h2 =>
        isFalse (by intro hh; injection hh; contradiction)
    else
      isFalse (by
        intro hh; injection hh with hp ht
        exact hk (congrArg Prod.fst hp))
termination_by structural xs => xs

end

instance : DecidableEq J := decEq

/-- Value of key `k` of an object (first occurrence), `none` elsewhere:
jsonpath child access `.k`. -/
def jGet (j : J) (k : String) : Option J :=
  match j with
  | .obj l => (l.find? (fun kv => kv.1 == k)).map (·.2)
  | _ => none

/-- Replace the value at key `k` when the key is present, leave anything
else unchanged: jsonpath-ng's `Fields.update`, which assigns only to
existing keys. -/
def setKey (j : J) (k : String) (v : J) : J :=
  match j with
  | .obj l => .obj (l.map (fun kv => if kv.1 == k then (kv.1, v) else kv))
  | _ => j

/-- Apply `f` to the value at key `k` when present (navigation step of a
path update). -/
def jModify (j : J) (k : String) (f : J → J) : J :=
  match j with
  | .obj l => .obj (l.map (fun kv => if kv.1 == k then (kv.1, f kv.2) else kv))
  | _ => j

/-- The member values of an object: jsonpath `.*` (which yields nothing
on arrays and scalars in jsonpath-ng). -/
def jChildren (j : J) : List J :=
  match j with
  | .obj l => l.map (·.2)
  | _ => []

/-- Apply `f` to every member value of an object: a path update through
`.*`. -/
def jMapChildren (f : J → J) (j : J) : J :=
  match j with
  | .obj l => .obj (l.map (fun kv => (kv.1, f kv.2)))
  | _ => j

mutual

/-- All values at key `k` over the node and its descendants in
depth-first document order: `$..k`.  jsonpath-ng's `Descendants.find`
reports the node's own key first, then recurses into member values and
array elements in order. -/
def descAllKey (k : String) : J → List J
  | .obj l => (l.filter (fun kv => kv.1 == k)).map (·.2) ++ descAllKeyO k l
  | .arr l => descAllKeyA k l
  | _ => []
termination_by structural j => j

/-- `descAllKey` over the member values of an object. -/
def descAllKeyO (k : String) : List (String × J) → List J
  | [] => []
  | kv :: xs => descAllKey k kv.2 ++ descAllKeyO k xs
termination_by structural l => l

/-- `descAllKey` over the elements of an array. -/
def descAllKeyA (k : String) : List J → List J
  | [] => []
  | x :: xs => descAllKey k x ++ descAllKeyA k xs
termination_by structural l => l

end

/-- First value at key `k` in depth-first document order: `$..k`
followed by `[0]`. -/
def descFirstKey (k : String) (j : J) : Option J :=
  (descAllKey k j).head?

mutual

/-- Set every descendant occurrence of key `k` to the (atomic) value
`v`: the update form of `$..k`. -/
def descSetKey (k : String) (v : J) : J → J
  | .obj l => .obj (descSetKeyO k v l)
  | .arr l => .arr (descSetKeyA k v l)
  | x => x
termination_by structural j => j

/-- `descSetKey` over the members of an object. -/
def descSetKeyO (k : String) (v : J) : List (String × J) → List (String × J)
  | [] => []
  | (k', w) :: xs =>
    (if k' == k then (k', v) else (k', descSetKey k v w)) :: descSetKeyO k v xs
termination_by structural l => l

/-- `descSetKey` over the elements of an array. -/
def descSetKeyA (k : String) (v : J) : List J → List J
  | [] => []
  | x :: xs => descSetKey k v x :: descSetKeyA k v xs
termination_by structural l => l

end

end J

open J

/-- A `From` clause entry `{Name, Entity, Type}` of a semantic query,
the record shape `_add_from_table` appends and `_prune_from_tables`
reads. -/
structure FromEntry where
  name : String
  entity : String
  ty : Int
deriving Repr, DecidableEq, Inhabited

/-- The serialisation of a `From` entry back into the JSON tree. -/
def FromEntry.toJ (e : FromEntry) : J :=
  .obj [("Name", .s e.name), ("Entity", .s e.entity), ("Type", .i e.ty)]

/-- A semantic query block `{From, Select, Where?, OrderBy?}`
(`GenericVisualQuery` in report.py, `SemanticQuery` in visual.py; the two
classes are line-for-line identical).  `Select`, `Where` and `OrderBy`
may be absent (`query.get` returning `None`); `From` is required — every
rewrite on a query without `From` raises in Python (iteration or append
on `None`). -/
structure SQ where
  frm : List FromEntry
  sel : Option (List J)
  whr : Option (List J)
  ordBy : Option (List J)
deriving Repr, BEq, DecidableEq, Inhabited

namespace SQ

/-- `_return_from_table_alias` / `_find_from_table_alias`:
`$[?(@.Entity=='table')].Name` then `[0]` — the alias of the first
`From` entry for `table`. -/
def returnFromTableAlias (frm : List FromEntry) (table : String) : Option String :=
  (frm.find? (fun e => e.entity == table)).map (·.name)

/-- `_return_from_tables`: `$.[*].Name` — all aliases in `From`. -/
def returnFromTables (frm : List FromEntry) : List String :=
  frm.map (·.name)

/-- `re.compile("[^0-9]").sub("0", s)`: every non-digit character becomes
`'0'`. -/
def digitsOnly (l : List Char) : List Char :=
  l.map (fun c => if c.isDigit then c else '0')

/-- Decimal value of a digit string (the behaviour of Python `int` on a
non-empty all-digit string). -/
def foldDigits (l : List Char) : Nat :=
  l.foldl (fun a c => a * 10 + (c.toNat - 48)) 0

/-- `int(re.sub("[^0-9]", "0", name))` for non-empty `name`. -/
def pyInt (s : String) : Nat :=
  foldDigits (digitsOnly s.data)

/-- Python `s[:1]` — the first character of a string (or the empty
string), as a string. -/
def strTake1 (s : String) : String :=
  String.mk (s.data.take 1)

/-- Python `s[:1].lower()`. -/
def strTake1Lower (s : String) : String :=
  String.mk ((s.data.take 1).map Char.toLower)

/-- `_generate_table_aliases`: lowercased first character of the new
table, suffixed with one more than the largest numeric value among
existing aliases that begin with the same character.  Returns `none`
for Python's `ValueError` when `int` is applied to an empty string
(only possible when the candidate character is itself empty). -/
def generateTableAlias (frm : List FromEntry) (tableNew : String) : Option String :=
  let a := strTake1Lower tableNew
  let names := (returnFromTables frm).filter (fun n => strTake1 n == a)
  if names.any (fun n => n.isEmpty) then none
  else if names.isEmpty then some a
  else some (a ++ toString ((names.map pyInt).foldl Nat.max 0 + 1))

/-- The body of `_prune_from_tables`' removal loop: Python's
`for table in self.frm: if table["Name"] == alias: self.frm.remove(table)`,
with CPython's iterator semantics — the internal index advances by one
each step while `list.remove` deletes the first element equal to the
current one, so the element following a removal is skipped. -/
def pruneIter (frm : List FromEntry) (a : String) (i : Nat) : Nat → List FromEntry
  | 0 => frm
  | fuel + 1 =>
    match frm[i]? with
    | none => frm
    | some t =>
      if t.name == a then pruneIter (frm.erase t) a (i + 1) fuel
      else pruneIter frm a (i + 1) fuel

/-- `_prune_from_tables` / `_cleanup_tables` helper:
`$[?(@.Name!='tfOld')].*.Expression.SourceRef.Source` — the sources of
the select entries other than the row being rewritten (entries without a
`Name` key match neither side of `!=` and are excluded). -/
def entryExprSources (e : J) : List J :=
  (jChildren e).filterMap (fun v =>
    (jGet v "Expression").bind (fun w => (jGet w "SourceRef").bind (fun x => jGet x "Source")))

/-- `_return_select_tables`. -/
def returnSelectTables (sel : Option (List J)) (tfOld : String) : List J :=
  ((sel.getD []).filter (fun e =>
      match jGet e "Name" with
      | some v => !(v == J.s tfOld)
      | none => false)).flatMap entryExprSources

/-- `_return_where_tables`: `$[?(@..Source!='alias')]..Source` — all
descendant `Source` values of the `Where` entries that contain at least
one `Source` different from `alias`.  When the old alias is `None`,
Python interpolates the string `"None"` into the path. -/
def returnWhereTables (whr : Option (List J)) (aliasStr : String) : List J :=
  ((whr.getD []).filter (fun e =>
      (descAllKey "Source" e).any (fun v => !(v == J.s aliasStr)))).flatMap
    (descAllKey "Source")

/-- `_prune_from_tables` / `_cleanup_tables`: drop the old table's alias
from `From` when it is referenced neither by another select row nor by a
`Where` entry that survives the `!=` filter. -/
def cleanupTables (q : SQ) (tfOld tableOld : String) : SQ :=
  let aliasOld := returnFromTableAlias q.frm tableOld
  let selects := returnSelectTables q.sel tfOld
  let aliasStr := match aliasOld with | some a => a | none => "None"
  let wheres := returnWhereTables q.whr aliasStr
  match aliasOld with
  | some a =>
    if !(selects.contains (J.s a)) && !(wheres.contains (J.s a)) then
      { q with frm := pruneIter q.frm a 0 (q.frm.length + 1) }
    else q
  | none =>
    -- `None == table["Name"]` is false for every entry: the loop removes nothing.
    q

/-- Navigation `.Expression.SourceRef` ending in an update of `Source`. -/
def setExprSource (name : J) (v : J) : J :=
  jModify v "Expression" (fun ex =>
    jModify ex "SourceRef" (fun sr => setKey sr "Source" name))

/-- `_update_select_table_alias(es)`:
`$[?(@.Name=='tf')].*.Expression.SourceRef.Source`. -/
def updateSelectTableAliases (sel : Option (List J)) (tf : String) (name : J) :
    Option (List J) :=
  sel.map (List.map (fun e =>
    if jGet e "Name" == some (J.s tf) then jMapChildren (setExprSource name) e else e))

/-- `_update_select_fields`: `$[?(@.Name=='tf')].*.Property`. -/
def updateSelectFields (sel : Option (List J)) (tf : String) (field : J) :
    Option (List J) :=
  sel.map (List.map (fun e =>
    if jGet e "Name" == some (J.s tf) then
      jMapChildren (fun v => setKey v "Property" field) e
    else e))

/-- `_update_select_table_fields`: `$[?(@.Name=='tfOld')].Name` — the
identifier rewrite, performed last. -/
def updateSelectTableFields (sel : Option (List J)) (tfOld tfNew : String) :
    Option (List J) :=
  sel.map (List.map (fun e =>
    if jGet e "Name" == some (J.s tfOld) then setKey e "Name" (J.s tfNew) else e))

/-- The `OrderBy` filter `@.Expression.*.Property=='fOld'`. -/
def ordEntryMatches (fOld : String) (e : J) : Bool :=
  match jGet e "Expression" with
  | some ex => (jChildren ex).any (fun w => jGet w "Property" == some (J.s fOld))
  | none => false

/-- `_update_orderby_table_alias(es)`:
`$[?(@.Expression.*.Property=='fOld')].Expression.*.Expression.SourceRef.Source`
(an update through a missing `OrderBy` is a no-op). -/
def updateOrderByTableAliases (ord : Option (List J)) (fOld : String) (aName : J) :
    Option (List J) :=
  ord.map (List.map (fun e =>
    if ordEntryMatches fOld e then
      jModify e "Expression" (jMapChildren (setExprSource aName))
    else e))

/-- `_update_orderby_field(s)`:
`$[?(@.Expression.*.Property=='fOld')].Expression.*.Property`. -/
def updateOrderByFields (ord : Option (List J)) (fOld fNew : String) :
    Option (List J) :=
  ord.map (List.map (fun e =>
    if ordEntryMatches fOld e then
      jModify e "Expression" (jMapChildren (fun w => setKey w "Property" (J.s fNew)))
    else e))

/-- `_update_where_table_alias(es)`: `find("$..Property")[0]` — raises
`IndexError` (`none`) when the condition holds no `Property` node; when
the first `Property` equals `fOld`, every descendant `Source` in the
condition is set to the new alias. -/
def updateWhereTableAliases (fOld : String) (name : J) (cond : J) : Option J :=
  match descFirstKey "Property" cond with
  | none => none
  | some p => if p == J.s fOld then some (descSetKey "Source" name cond) else some cond

/-- `_update_where_field(s)`: as above, setting every descendant
`Property` to the new field. -/
def updateWhereFields (fOld fNew : String) (cond : J) : Option J :=
  match descFirstKey "Property" cond with
  | none => none
  | some p => if p == J.s fOld then some (descSetKey "Property" (J.s fNew) cond) else some cond

/-- `_update_where_settings`: for every `Where` node and every of its
member conditions, rewrite aliases then fields.  A node that is not an
object raises (`.items()`), modelled by `none`. -/
def updateWhereSettings (fOld fNew : String) (name : J) (whr : List J) :
    Option (List J) :=
  whr.mapM (fun node =>
    match node with
    | J.obj l =>
      (l.mapM (fun (kv : String × J) => do
        let c1 ← updateWhereTableAliases fOld name kv.2
        let c2 ← updateWhereFields fOld fNew c1
        return (kv.1, c2)) : Option (List (String × J))).map J.obj
    | _ => none)

/-- Look up the new table's alias; when it is absent or Python-falsy
(the empty string), generate a fresh one and append the new `From`
entry.  Returns the alias used together with the resulting `From`. -/
def resolveNewAlias (frm : List FromEntry) (tableNew : String) :
    Option (String × List FromEntry) :=
  let gen : Option (String × List FromEntry) :=
    (generateTableAlias frm tableNew).map (fun g => (g, frm ++ [⟨g, tableNew, 0⟩]))
  match returnFromTableAlias frm tableNew with
  | some a => if a.isEmpty then gen else some (a, frm)
  | none => gen

/-- The `Where` step of `update_fields`: skipped when `Where` is absent
or empty (Python truthiness of `self.where`). -/
def updateWhereBlock (whr : Option (List J)) (fOld fNew : String) (aNew : J) :
    Option (Option (List J)) :=
  match whr with
  | none => some none
  | some [] => some (some ([] : List J))
  | some l => (updateWhereSettings fOld fNew aNew l).map some

/-- `update_fields` of `GenericVisualQuery` (report.py) /
`SemanticQuery` (visual.py; the two classes are line-for-line
identical): prune the old table's alias, look up or generate the new
table's alias, rewrite select aliases and fields, order-by aliases and
fields, where conditions, and finally — last, because siblings key off
it — the select `Name` identifiers. -/
def updateFields (q : SQ) (tfOld tfNew tableOld tableNew fOld fNew : String) :
    Option SQ :=
  let q1 := cleanupTables q tfOld tableOld
  match resolveNewAlias q1.frm tableNew with
  | none => none
  | some (aliasNew, frm2) =>
    let sel3 := updateSelectTableAliases q1.sel tfOld (J.s aliasNew)
    let sel4 := updateSelectFields sel3 tfOld (J.s fNew)
    let ord5 := updateOrderByTableAliases q1.ordBy fOld (J.s aliasNew)
    let ord6 := updateOrderByFields ord5 fOld fNew
    match updateWhereBlock q1.whr fOld fNew (J.s aliasNew) with
    | none => none
    | some whr7 =>
      some { frm := frm2
             sel := updateSelectTableFields sel4 tfOld tfNew
             whr := whr7
             ordBy := ord6 }

end SQ

/-- Python `str.split(c)` over the character list. -/
def splitOnChar (c : Char) (l : List Char) (acc : List Char) : List String :=
  match l with
  | [] => [String.mk acc.reverse]
  | x :: xs =>
    if x == c then String.mk acc.reverse :: splitOnChar c xs []
    else splitOnChar c xs (x :: acc)

/-- `old.split(".")` unpacked into `(table, field)`: defined exactly when
the qualifier contains a single dot (otherwise the unpacking raises). -/
def splitQualifier (s : String) : Option (String × String) :=
  match splitOnChar '.' s.data [] with
  | [x, y] => some (x, y)
  | _ => none

/-- `update_fields` driven from a dotted qualifier pair, as every caller
invokes it. -/
def SQ.updateFieldsQ (q : SQ) (old new : String) : Option SQ := do
  let (tableOld, fOld) ← splitQualifier old
  let (tableNew, fNew) ← splitQualifier new
  SQ.updateFields q old new tableOld tableNew fOld fNew

/-! ## Visual sub-document rewriters (report.py, plus the visual.py
data-transforms variant) -/

/-- `$.objects.*[?(@.selector.metadata=='old')].selector.metadata` —
the per-entry update. -/
def updSelectorMetadata (old new : String) (e : J) : J :=
  if (jGet e "selector").bind (fun s_ => jGet s_ "metadata") == some (J.s old) then
    jModify e "selector" (fun s_ => setKey s_ "metadata" (J.s new))
  else e

/-- The same update applied to one member value of `objects` (a filter
`[?(...)]` applies to array values; other values match nothing). -/
def updObjectsVal (old new : String) (v : J) : J :=
  match v with
  | J.arr l => J.arr (l.map (updSelectorMetadata old new))
  | x => x

/-- `$.projections.*[?(@.queryRef=='old')].queryRef` applied to one
member value of `projections`. -/
def updQueryRefVal (old new : String) (v : J) : J :=
  match v with
  | J.arr l => J.arr (l.map (fun e =>
      if jGet e "queryRef" == some (J.s old) then setKey e "queryRef" (J.s new) else e))
  | x => x

/-- The `dataTransforms` sub-document: `selects`, `queryMetadata` and
`objects`, the three members the rewriters read (report.py
`VisualDataTransforms` and visual.py `DataTransforms`). -/
structure DT where
  selects : Option (List J)
  queryMetadata : Option J
  objects : Option (List (String × J))
deriving Repr, DecidableEq, Inhabited

namespace DT

/-- `_update_datatransforms_metadata` / `_update_objects_metadata`:
`$.objects.*[?(@.selector.metadata=='old')].selector.metadata`. -/
def updObjectsMetadata (os : Option (List (String × J))) (old new : String) :
    Option (List (String × J)) :=
  os.map (List.map (fun kv => (kv.1, updObjectsVal old new kv.2)))

/-- The select-entry filter `@.queryName=='old'`. -/
def selMatches (old : String) (e : J) : Bool :=
  jGet e "queryName" == some (J.s old)

/-- `_update_datatransforms_selects` / `_update_selects_tables`:
`$.selects[?(@.queryName=='old')].expr.*.Expression.SourceRef.Entity`. -/
def updSelectsTables (sels : Option (List J)) (old : String) (tn : J) :
    Option (List J) :=
  sels.map (List.map (fun e =>
    if selMatches old e then
      jModify e "expr" (jMapChildren (fun w =>
        jModify w "Expression" (fun x => jModify x "SourceRef" (fun y => setKey y "Entity" tn))))
    else e))

/-- `_update_datatransforms_selects_field` / `_update_selects_fields`:
`$.selects[?(@.queryName=='old')].expr.*.Property`. -/
def updSelectsFields (sels : Option (List J)) (old : String) (fn : J) :
    Option (List J) :=
  sels.map (List.map (fun e =>
    if selMatches old e then
      jModify e "expr" (jMapChildren (fun w => setKey w "Property" fn))
    else e))

/-- `_update_selects_table_fields` (the identifier, rewritten last):
`$.selects[?(@.queryName=='old')].queryName`. -/
def updSelectsQueryNames (sels : Option (List J)) (old new : String) :
    Option (List J) :=
  sels.map (List.map (fun e =>
    if selMatches old e then setKey e "queryName" (J.s new) else e))

/-- visual.py `_update_selects_display_names`:
`find("$.selects[?(@.queryName=='old')].displayName")[0]` raises
`IndexError` (`none`) when no select matches (or no matching select
carries a `displayName`); when the first matching display name equals
the old field, every matching display name is set to the new field. -/
def updDisplayNames (sels : Option (List J)) (old fOld fNew : String) :
    Option (Option (List J)) :=
  match (sels.getD []).filterMap
      (fun e => if selMatches old e then jGet e "displayName" else none) with
  | [] => none
  | v0 :: _ =>
    if v0 == J.s fOld then
      some (sels.map (List.map (fun e =>
        if selMatches old e then setKey e "displayName" (J.s fNew) else e)))
    else some sels

/-- The metadata-filter entry predicate `@.expression.*.Property=='fOld'`. -/
def mdFilterMatches (fOld : String) (e : J) : Bool :=
  match jGet e "expression" with
  | some ex => (jChildren ex).any (fun w => jGet w "Property" == some (J.s fOld))
  | none => false

/-- `_update_query_metadata_filters_table` / `_update_filters_metadata_tables`:
`$.Filters[?(@.expression.*.Property=='fOld')].expression.*.Expression.SourceRef.Entity`
on `queryMetadata` (a missing metadata object is a no-op). -/
def updMdFiltersTables (md : Option J) (fOld : String) (tn : J) : Option J :=
  md.map (fun m => jModify m "Filters" (fun fv =>
    match fv with
    | J.arr l => J.arr (l.map (fun e =>
        if mdFilterMatches fOld e then
          jModify e "expression" (jMapChildren (fun w =>
            jModify w "Expression" (fun x =>
              jModify x "SourceRef" (fun y => setKey y "Entity" tn))))
        else e))
    | x => x))

/-- `_update_query_metadata_filters_property` / `_update_filters_metadata_fields`:
`$.Filters[?(@.expression.*.Property=='fOld')].expression.*.Property`. -/
def updMdFiltersProps (md : Option J) (fOld fNew : String) : Option J :=
  md.map (fun m => jModify m "Filters" (fun fv =>
    match fv with
    | J.arr l => J.arr (l.map (fun e =>
        if mdFilterMatches fOld e then
          jModify e "expression" (jMapChildren (fun w => setKey w "Property" (J.s fNew)))
        else e))
    | x => x))

/-- `_update_query_meta_data` / `_update_query_metadata_table_fields`:
`$.queryMetadata.Select[?(@.Name=='old')].Name`. -/
def updMdSelectNames (md : Option J) (old new : String) : Option J :=
  md.map (fun m => jModify m "Select" (fun sv =>
    match sv with
    | J.arr l => J.arr (l.map (fun e =>
        if jGet e "Name" == some (J.s old) then setKey e "Name" (J.s new) else e))
    | x => x))

/-- `VisualDataTransforms.update_fields` (report.py): metadata selector
rewrite, select tables and fields, metadata filters, then — last — the
`queryName` and `queryMetadata.Select.Name` identifiers.  (This variant
touches neither `displayName` nor `objects.dataPoint` and is total.) -/
def updateFieldsReport (dt : DT) (tfOld tfNew tableNew fOld fNew : String) : DT :=
  let os1 := updObjectsMetadata dt.objects tfOld tfNew
  let sel2 := updSelectsTables dt.selects tfOld (J.s tableNew)
  let sel3 := updSelectsFields sel2 tfOld (J.s fNew)
  let md4 := updMdFiltersTables dt.queryMetadata fOld (J.s tableNew)
  let md5 := updMdFiltersProps md4 fOld fNew
  let sel6 := updSelectsQueryNames sel3 tfOld tfNew
  let md7 := updMdSelectNames md5 tfOld tfNew
  { selects := sel6, queryMetadata := md7, objects := os1 }

mutual

/-- visual.py `_update_object_datapoints` on one node: every descendant
object whose `Property` equals the old field is inspected; a node
missing `Expression` or `SourceRef` raises (`None.get`, modelled as
`none`); when its `Expression.SourceRef.Entity` equals the old table,
`Property` and the entity are rewritten.  (Modelled as a single pass;
the source finds the nodes once and mutates them in place, which
coincides on the schema's non-nested `dataPoint` entries.) -/
def dpUpdateNode (tableOld tableNew fOld fNew : String) : J → Option J
  | J.obj l =>
    if (l.find? (fun kv => kv.1 == "Property")).map (·.2) == some (J.s fOld) then
      match (J.obj l |>.jGet "Expression") with
      | none => none
      | some ex =>
        match jGet ex "SourceRef" with
        | none => none
        | some sr =>
          if jGet sr "Entity" == some (J.s tableOld) then
            some (setKey
              (jModify (J.obj l) "Expression" (fun x =>
                jModify x "SourceRef" (fun y => setKey y "Entity" (J.s tableNew))))
              "Property" (J.s fNew))
          else some (J.obj l)
    else
      (dpUpdateNodeO tableOld tableNew fOld fNew l).map J.obj
  | J.arr l => (dpUpdateNodeA tableOld tableNew fOld fNew l).map J.arr
  | x => some x
termination_by structural j => j

/-- `dpUpdateNode` over object members. -/
def dpUpdateNodeO (tableOld tableNew fOld fNew : String) :
    List (String × J) → Option (List (String × J))
  | [] => some []
  | kv :: xs => do
    let v' ← dpUpdateNode tableOld tableNew fOld fNew kv.2
    let xs' ← dpUpdateNodeO tableOld tableNew fOld fNew xs
    return (kv.1, v') :: xs'
termination_by structural l => l

/-- `dpUpdateNode` over array elements. -/
def dpUpdateNodeA (tableOld tableNew fOld fNew : String) :
    List J → Option (List J)
  | [] => some []
  | x :: xs => do
    let x' ← dpUpdateNode tableOld tableNew fOld fNew x
    let xs' ← dpUpdateNodeA tableOld tableNew fOld fNew xs
    return x' :: xs'
termination_by structural l => l

end

end DT

namespace DT

/-- `DataTransforms.update_fields` (visual.py).  Construction requires
the `objects` member (`self.objects.get("dataPoint")` raises on `None`);
`dataPoint` is the member of `objects` of that name.  Order: objects
selector metadata, dataPoint rewrite, select tables, fields and display
names, metadata filters, then — last — the `queryName` and
`queryMetadata.Select.Name` identifiers. -/
def updateFieldsVisual (dt : DT) (tfOld tfNew tableOld tableNew fOld fNew : String) :
    Option DT := do
  let os ← dt.objects
  let os1 := (updObjectsMetadata (some os) tfOld tfNew).getD []
  let os2 ← match (os1.find? (fun kv => kv.1 == "dataPoint")).map (·.2) with
    | none => some os1
    | some dp =>
      (dpUpdateNode tableOld tableNew fOld fNew dp).map (fun dp' =>
        os1.map (fun kv => if kv.1 == "dataPoint" then (kv.1, dp') else kv))
  let sel3 := updSelectsTables dt.selects tfOld (J.s tableNew)
  let sel4 := updSelectsFields sel3 tfOld (J.s fNew)
  let sel5 ← updDisplayNames sel4 tfOld fOld fNew
  let md6 := updMdFiltersTables dt.queryMetadata fOld (J.s tableNew)
  let md7 := updMdFiltersProps md6 fOld fNew
  let sel8 := updSelectsQueryNames sel5 tfOld tfNew
  let md9 := updMdSelectNames md7 tfOld tfNew
  return { selects := sel8, queryMetadata := md9, objects := some os2 }

end DT

/-! ## Visual config (report.py `VisualConfig`) -/

/-- The `singleVisual` object of a visual's `config`: the members the
report.py rewriter reads — `prototypeQuery` (required at construction),
`visualType`, `columnProperties`, `projections` and `objects`. -/
structure SV where
  visualType : Option J
  prototypeQuery : SQ
  columnProperties : Option (List (String × J))
  projections : Option (List (String × J))
  objects : Option (List (String × J))
deriving Repr, DecidableEq, Inhabited

namespace SV

/-- `_update_column_properties`: `cp[new] = cp.pop(old)` when `old` is a
key — remove the old key and bind its value to the new key (overwriting
in place when the new key already exists, appending otherwise). -/
def cpUpdate (cp : List (String × J)) (old new : String) : List (String × J) :=
  match (cp.find? (fun kv => kv.1 == old)).map (·.2) with
  | none => cp
  | some v =>
    if (cp.eraseP (fun kv => kv.1 == old)).any (fun kv => kv.1 == new) then
      (cp.eraseP (fun kv => kv.1 == old)).map
        (fun kv => if kv.1 == new then (kv.1, v) else kv)
    else cp.eraseP (fun kv => kv.1 == old) ++ [(new, v)]

/-- `VisualConfig.update_fields` (report.py): drive the semantic query
rewriter over `prototypeQuery`, move the `columnProperties` key, rewrite
`objects.*.selector.metadata`, and — last, because prior rewrites
predicate on the old value — rewrite `projections.*.queryRef`. -/
def updateFields (sv : SV) (tfOld tfNew tableOld tableNew fOld fNew : String) :
    Option SV := do
  let q' ← SQ.updateFields sv.prototypeQuery tfOld tfNew tableOld tableNew fOld fNew
  let cp' := sv.columnProperties.map (fun cp => cpUpdate cp tfOld tfNew)
  let os' := sv.objects.map (List.map (fun kv => (kv.1, updObjectsVal tfOld tfNew kv.2)))
  let pr' := sv.projections.map (List.map (fun kv => (kv.1, updQueryRefVal tfOld tfNew kv.2)))
  return { sv with prototypeQuery := q', columnProperties := cp',
                   objects := os', projections := pr' }

end SV

/-! ## Visual filters (report.py `VisualFilters`) -/

/-- A `filters` entry: its `expression` member and its `filter`
sub-document (a full semantic query), the two members the rewriter
reads. -/
structure FilterEntry where
  expression : Option J
  filt : Option SQ
deriving Repr, DecidableEq, Inhabited

namespace FilterEntry

/-- The filter-entry predicate `@.expression.*.Property=='fOld'`. -/
def feMatches (fOld : String) (e : FilterEntry) : Bool :=
  match e.expression with
  | some ex => (jChildren ex).any (fun w => jGet w "Property" == some (J.s fOld))
  | none => false

/-- `_update_filters`: for each matching entry that carries a `filter`
sub-document, run the semantic query rewriter on it. -/
def updSubQueries (fs : List FilterEntry)
    (tfOld tfNew tableOld tableNew fOld fNew : String) : Option (List FilterEntry) :=
  fs.mapM (fun e =>
    if feMatches fOld e then
      match e.filt with
      | some q => (SQ.updateFields q tfOld tfNew tableOld tableNew fOld fNew).map
          (fun q' => { e with filt := some q' })
      | none => some e
    else some e)

/-- `_update_table`:
`$[?(@.expression.*.Property=='fOld')].expression.*.Expression.SourceRef.Entity`. -/
def updTables (fs : List FilterEntry) (fOld : String) (tn : J) : List FilterEntry :=
  fs.map (fun e =>
    if feMatches fOld e then
      { e with expression := e.expression.map (jMapChildren (fun w =>
          jModify w "Expression" (fun x =>
            jModify x "SourceRef" (fun y => setKey y "Entity" tn)))) }
    else e)

/-- `_update_field`: `$[?(@.expression.*.Property=='fOld')].expression.*.Property`. -/
def updFields (fs : List FilterEntry) (fOld fNew : String) : List FilterEntry :=
  fs.map (fun e =>
    if feMatches fOld e then
      { e with expression := e.expression.map (jMapChildren (fun w =>
          setKey w "Property" (J.s fNew))) }
    else e)

/-- `VisualFilters.update_fields` (report.py): sub-queries first, then
the filter expressions' entity and property. -/
def updateFilters (fs : List FilterEntry)
    (tfOld tfNew tableOld tableNew fOld fNew : String) : Option (List FilterEntry) := do
  let fs1 ← updSubQueries fs tfOld tfNew tableOld tableNew fOld fNew
  let fs2 := updTables fs1 fOld (J.s tableNew)
  return updFields fs2 fOld fNew

end FilterEntry

/-! ## Visual query (report.py `VisualQuery`) -/

/-- The `query` sub-document, modelled by its
`Commands[*].SemanticQueryDataShapeCommand.Query` semantic queries (the
only member the rewriter reads; construction requires `Commands`). -/
structure QueryDoc where
  commands : List SQ
deriving Repr, DecidableEq, Inhabited

/-- `VisualQuery.update_fields` (report.py): run the semantic rewriter
on each command's query. -/
def QueryDoc.updateFields (qd : QueryDoc)
    (tfOld tfNew tableOld tableNew fOld fNew : String) : Option QueryDoc :=
  (qd.commands.mapM (fun q =>
    SQ.updateFields q tfOld tfNew tableOld tableNew fOld fNew)).map QueryDoc.mk

/-! ## Serialisation back into the JSON tree, and parsing out of it.

The sub-documents are carried in the layout as JSON-encoded strings;
the rewriter parses them at visual construction and re-encodes exactly
the mutated ones.  `…ToJ` is the representation written back;
`…OfJ` is the parse performed at construction (`none` models the
exception Python raises when a required member is missing).  Members the
rewriter never reads are not modelled, and the model normalises member
order on re-encoding; no claim compares the bytes of a re-encoded
sub-document. -/

/-- Array contents of a JSON value. -/
def asArr : J → Option (List J)
  | .arr l => some l
  | _ => none

/-- Object members of a JSON value. -/
def asObj : J → Option (List (String × J))
  | .obj l => some l
  | _ => none

/-- Parse a `From` entry (alias record). -/
def fromEntryOfJ (j : J) : Option FromEntry := do
  let n ← jGet j "Name"
  let e ← jGet j "Entity"
  let t ← jGet j "Type"
  match n, e, t with
  | J.s n', J.s e', J.i t' => some ⟨n', e', t'⟩
  | _, _, _ => none

/-- Parse a semantic query block. -/
def sqOfJ (j : J) : Option SQ := do
  let fj ← jGet j "From"
  let fl ← asArr fj
  let frm ← fl.mapM fromEntryOfJ
  let sel ← match jGet j "Select" with
    | none => some none
    | some v => (asArr v).map some
  let whr ← match jGet j "Where" with
    | none => some none
    | some v => (asArr v).map some
  let ordBy ← match jGet j "OrderBy" with
    | none => some none
    | some v => (asArr v).map some
  return ⟨frm, sel, whr, ordBy⟩

/-- Serialise a semantic query block. -/
def sqToJ (q : SQ) : J :=
  .obj ([("From", J.arr (q.frm.map FromEntry.toJ))] ++
    (match q.sel with | some l => [("Select", J.arr l)] | none => []) ++
    (match q.whr with | some l => [("Where", J.arr l)] | none => []) ++
    (match q.ordBy with | some l => [("OrderBy", J.arr l)] | none => []))

/-- Parse a visual `config` into its `singleVisual` view (report.py
`VisualConfig.__init__`: `config["singleVisual"]` and its
`prototypeQuery` are required). -/
def svOfJ (config : J) : Option SV := do
  let sv ← jGet config "singleVisual"
  let pqj ← jGet sv "prototypeQuery"
  let pq ← sqOfJ pqj
  let cp ← match jGet sv "columnProperties" with
    | none => some none
    | some v => (asObj v).map some
  let pr ← match jGet sv "projections" with
    | none => some none
    | some v => (asObj v).map some
  let os ← match jGet sv "objects" with
    | none => some none
    | some v => (asObj v).map some
  return ⟨jGet sv "visualType", pq, cp, pr, os⟩

/-- Serialise the `singleVisual` view back into a `config` document. -/
def cfgToJ (sv : SV) : J :=
  .obj [("singleVisual", .obj (
    (match sv.visualType with | some v => [("visualType", v)] | none => []) ++
    [("prototypeQuery", sqToJ sv.prototypeQuery)] ++
    (match sv.columnProperties with | some l => [("columnProperties", J.obj l)] | none => []) ++
    (match sv.projections with | some l => [("projections", J.obj l)] | none => []) ++
    (match sv.objects with | some l => [("objects", J.obj l)] | none => [])))]

/-- Parse one filters entry. -/
def filterEntryOfJ (j : J) : Option FilterEntry := do
  let _ ← asObj j
  let f ← match jGet j "filter" with
    | none => some none
    | some fj => (sqOfJ fj).map some
  return ⟨jGet j "expression", f⟩

/-- Parse the `filters` sub-document. -/
def filtersOfJ (j : J) : Option (List FilterEntry) :=
  (asArr j).bind (List.mapM filterEntryOfJ)

/-- Serialise one filters entry. -/
def feToJ (e : FilterEntry) : J :=
  .obj ((match e.expression with | some ex => [("expression", ex)] | none => []) ++
    (match e.filt with | some q => [("filter", sqToJ q)] | none => []))

/-- Serialise the `filters` sub-document. -/
def filtersToJ (fs : List FilterEntry) : J :=
  .arr (fs.map feToJ)

/-- Parse the `query` sub-document (`Commands` is required; each command
is modelled by its `SemanticQueryDataShapeCommand.Query`, the only
member the rewriter reads). -/
def queryOfJ (j : J) : Option QueryDoc := do
  let cj ← jGet j "Commands"
  let cl ← asArr cj
  let cmds ← cl.mapM (fun c => do
    let scj ← jGet c "SemanticQueryDataShapeCommand"
    let qj ← jGet scj "Query"
    sqOfJ qj)
  return ⟨cmds⟩

/-- Serialise the `query` sub-document. -/
def queryToJ (qd : QueryDoc) : J :=
  .obj [("Commands", .arr (qd.commands.map (fun q =>
    .obj [("SemanticQueryDataShapeCommand", .obj [("Query", sqToJ q)])])))]

/-- Parse the `dataTransforms` sub-document. -/
def dtOfJ (j : J) : Option DT := do
  let _ ← asObj j
  let sel ← match jGet j "selects" with
    | none => some none
    | some v => (asArr v).map some
  let os ← match jGet j "objects" with
    | none => some none
    | some v => (asObj v).map some
  return ⟨sel, jGet j "queryMetadata", os⟩

/-- Serialise the `dataTransforms` sub-document. -/
def dtToJ (dt : DT) : J :=
  .obj ((match dt.selects with | some l => [("selects", J.arr l)] | none => []) ++
    (match dt.queryMetadata with | some m => [("queryMetadata", m)] | none => []) ++
    (match dt.objects with | some l => [("objects", J.obj l)] | none => []))

/-! ## The visual orchestrator (report.py `DataVisual`) -/

/-- A visual record of the layout tree: the four sub-documents the
rewriter reads or writes (each carried as a JSON-encoded string in the
file; `config` is present on every visual, the others are optional;
members such as geometry are never touched and are not modelled). -/
structure VisualRec where
  config : J
  filters : Option J
  query : Option J
  dataTransforms : Option J
deriving Repr, DecidableEq, Inhabited

/-- The parsed sub-documents of a data visual
(`DataVisual.visual_options`). -/
structure DataVisualDoc where
  cfg : SV
  filters : List FilterEntry
  query : Option QueryDoc
  dataTransforms : Option DT
deriving Repr, DecidableEq, Inhabited

mutual

/-- Does any node with a member of the identifier keys `queryRef`,
`Name`, `queryName` hold the qualified field as a member value?  This is
`find_field`'s path `$..@[?(@.*=='tf')].[queryRef, Name, queryName]`:
a descendant object matches when some member value equals the qualifier
and the object carries at least one of the three keys. -/
def findFieldJ (tf : String) : J → Bool
  | .obj l =>
    ((l.any (fun kv => kv.2 == J.s tf)) &&
      (l.any (fun kv => kv.1 == "queryRef" || kv.1 == "Name" || kv.1 == "queryName"))) ||
    findFieldO tf l
  | .arr l => findFieldA tf l
  | _ => false
termination_by structural j => j

/-- `findFieldJ` over object members. -/
def findFieldO (tf : String) : List (String × J) → Bool
  | [] => false
  | kv :: xs => findFieldJ tf kv.2 || findFieldO tf xs
termination_by structural l => l

/-- `findFieldJ` over array elements. -/
def findFieldA (tf : String) : List J → Bool
  | [] => false
  | x :: xs => findFieldJ tf x || findFieldA tf xs
termination_by structural l => l

end

/-- `DataVisual.find_field` (report.py): search every parsed
sub-document. -/
def findFieldDoc (tf : String) (d : DataVisualDoc) : Bool :=
  findFieldJ tf (cfgToJ d.cfg) || findFieldJ tf (filtersToJ d.filters) ||
    (match d.query with | some qd => findFieldJ tf (queryToJ qd) | none => false) ||
    (match d.dataTransforms with | some dt => findFieldJ tf (dtToJ dt) | none => false)

/-- `DataVisual.__init__` (report.py): parse `config` (with its required
`singleVisual.prototypeQuery`), the required `filters`, and the optional
`query` and `dataTransforms`. -/
def dataVisualOfRec (r : VisualRec) : Option DataVisualDoc := do
  let sv ← svOfJ r.config
  let fj ← r.filters
  let fs ← filtersOfJ fj
  let qd ← match r.query with
    | none => some none
    | some qj => (queryOfJ qj).map some
  let dt ← match r.dataTransforms with
    | none => some none
    | some dj => (dtOfJ dj).map some
  return ⟨sv, fs, qd, dt⟩

/-- The optional-`query` step of the visual rewrite (`if self.query:`). -/
def queryStep (q : Option QueryDoc) (old new tableOld tableNew fOld fNew : String) :
    Option (Option QueryDoc) :=
  match q with
  | none => some none
  | some qd => (qd.updateFields old new tableOld tableNew fOld fNew).map some

/-- The mutation phase of `DataVisual.update_fields` (report.py), run
once the predicate has matched: Config, then DataTransforms, then
Query, then Filters. -/
def dataVisualDocUpdate (d : DataVisualDoc)
    (old new tableOld tableNew fOld fNew : String) : Option DataVisualDoc := do
  let sv' ← SV.updateFields d.cfg old new tableOld tableNew fOld fNew
  let dt' : Option DT := d.dataTransforms.map
    (fun dt => DT.updateFieldsReport dt old new tableNew fOld fNew)
  let qd' ← queryStep d.query old new tableOld tableNew fOld fNew
  let fs' ← FilterEntry.updateFilters d.filters old new tableOld tableNew fOld fNew
  return ⟨sv', fs', qd', dt'⟩

/-- Re-encode the sub-documents of a rewritten data visual back into the
visual record (`self.layout[option] = json.dumps(value)` for every
present sub-document). -/
def encodeDoc (d : DataVisualDoc) : VisualRec :=
  { config := cfgToJ d.cfg
    filters := some (filtersToJ d.filters)
    query := d.query.map queryToJ
    dataTransforms := d.dataTransforms.map dtToJ }

/-- `DataVisual.update_fields` (report.py): split the qualifiers, check
the predicate; on a match run the rewrites, re-encode every present
sub-document, and set the visual's counter to 1; otherwise leave the
record untouched. -/
def dataVisualUpdate (r : VisualRec) (old new : String) : Option (VisualRec × Nat) := do
  let d ← dataVisualOfRec r
  let (tableOld, fOld) ← splitQualifier old
  let (tableNew, fNew) ← splitQualifier new
  if findFieldDoc old d then
    (dataVisualDocUpdate d old new tableOld tableNew fOld fNew).map
      (fun d' => (encodeDoc d', 1))
  else return (r, 0)

/-! ## The report orchestrator (report.py `Report`) -/

/-- The layout tree: pages (each a list of visual records) and the
top-level `config` member (which `Report.update_fields` never reads or
writes). -/
structure Layout where
  sections : List (List VisualRec)
  config : J
deriving Repr, DecidableEq, Inhabited

/-- `GenericVisual._return_visual_type`:
`$.singleVisual.visualType` on the parsed config. -/
def visualTypeOf (v : VisualRec) : Option J :=
  (jGet v.config "singleVisual").bind (fun sv => jGet sv "visualType")

/-- `GenericVisual.__init__`: a visual is a data visual unless its type
is one of the four non-data types or missing (a non-string type value is
not in the list, hence counts as a data visual). -/
def isDataVisual (v : VisualRec) : Bool :=
  match visualTypeOf v with
  | none => false
  | some (J.s t) => !(["image", "textbox", "shape", "actionButton"].contains t)
  | some _ => true

/-- One step of `Report.update_fields`' visual loop: data visuals are
rewritten, any other visual is left untouched. -/
def updateVisual (v : VisualRec) (old new : String) : Option (VisualRec × Nat) :=
  if isDataVisual v then dataVisualUpdate v old new else some (v, 0)

/-- `Report.update_fields`: walk every page and every visual, rewrite
the data visuals, and sum the per-visual counters into the report's
`updated` counter.  (The loop over report pages' own filters is
commented out in the source; the top-level `config` is never touched.) -/
def Layout.updateFields (L : Layout) (old new : String) : Option (Layout × Nat) := do
  let pages ← L.sections.mapM (fun vs => vs.mapM (fun v => updateVisual v old new))
  return ({ sections := pages.map (List.map Prod.fst), config := L.config },
    (pages.map (fun vs => (vs.map Prod.snd).sum)).sum)

/-- `replace_field` (samples/replace_field.py): run the rewrite and
re-emit the container only when the counter is positive.  The boolean
records whether `write_file` was invoked. -/
def replaceField (L : Layout) (old new : String) : Option (Layout × Nat × Bool) :=
  (L.updateFields old new).map (fun r => (r.1, r.2, decide (0 < r.2)))

/-! ## The container write (report.py `Report.write_file`) -/

/-- Contents of a zip member: the original bytes, or the re-serialised
layout tree encoded as UTF-16LE. -/
inductive ZC where
  | raw (data : String)
  | layoutUtf16 (L : Layout)
deriving Repr, DecidableEq, Inhabited

/-- The member loop of `write_file`: every member of the original
archive in order, with `Report/Layout` replaced by the re-serialised
tree and `SecurityBindings` skipped. -/
def writeMembers (members : List (String × ZC)) (L : Layout) : List (String × ZC) :=
  members.filterMap (fun m =>
    if m.1 == "Report/Layout" then some (m.1, ZC.layoutUtf16 L)
    else if m.1 == "SecurityBindings" then none
    else some m)

/-- Python `os.path.basename` (posix): the part after the last slash. -/
def basenameStr (p : String) : String :=
  (splitOnChar '/' p.data []).getLastD p

/-- Python `os.path.dirname` (posix), for paths with at least one
non-leading slash: everything before the last slash. -/
def dirnameStr (p : String) : String :=
  let parts := splitOnChar '/' p.data []
  if parts.length ≤ 1 then "" else String.intercalate "/" parts.dropLast

/-- Python `os.path.splitext`: split at the last dot, unless every
character before it is a dot (leading-dot names have no extension). -/
def splitExtStr (n : String) : String × String :=
  let rev := n.data.reverse
  let revExt := rev.takeWhile (fun c => !(c == '.'))
  let rest := rev.drop revExt.length
  match rest with
  | '.' :: restBase =>
    if restBase.any (fun c => !(c == '.')) then
      (String.mk restBase.reverse, String.mk ('.' :: revExt.reverse))
    else (n, "")
  | _ => (n, "")

/-- `write_file`'s temp path:
`os.path.join(f"{base} Temp{ext}")` with `base, ext` split from
`self.filename` — the *basename* of the report's path — and `os.path.join`
applied to a single argument, i.e. a path relative to the process
working directory. -/
def tempFilepath (filepath : String) : String :=
  let be := splitExtStr (basenameStr filepath)
  be.1 ++ " Temp" ++ be.2

/-! ## Predicates used to state the claims -/

mutual

/-- Does some object node in the tree (the node itself or a descendant)
satisfy `p` on its member list? -/
def jAnyNode (p : List (String × J) → Bool) : J → Bool
  | .obj l => p l || jAnyNodeO p l
  | .arr l => jAnyNodeA p l
  | _ => false
termination_by structural j => j

/-- `jAnyNode` over object members. -/
def jAnyNodeO (p : List (String × J) → Bool) : List (String × J) → Bool
  | [] => false
  | kv :: xs => jAnyNode p kv.2 || jAnyNodeO p xs
termination_by structural l => l

/-- `jAnyNode` over array elements. -/
def jAnyNodeA (p : List (String × J) → Bool) : List J → Bool
  | [] => false
  | x :: xs => jAnyNode p x || jAnyNodeA p xs
termination_by structural l => l

end

/-- Does some `Select` array anywhere in the tree contain an entry whose
`Name` is the given qualifier? -/
def selNameOccurs (tf : String) (j : J) : Bool :=
  jAnyNode (fun l =>
    match (l.find? (fun kv => kv.1 == "Select")).map (·.2) with
    | some (J.arr es) => es.any (fun e => jGet e "Name" == some (J.s tf))
    | _ => false) j

/-- Does some object node hold the qualifier as the value of one of the
identifier keys `queryRef`, `Name`, `queryName`? -/
def idKeyHolds (tf : String) (j : J) : Bool :=
  jAnyNode (fun l => l.any (fun kv =>
    (kv.1 == "queryRef" || kv.1 == "Name" || kv.1 == "queryName") &&
      kv.2 == J.s tf)) j

/-- The raw sub-documents of a visual record. -/
def VisualRec.docs (r : VisualRec) : List J :=
  [r.config] ++ (match r.filters with | some f => [f] | none => []) ++
    (match r.query with | some q => [q] | none => []) ++
    (match r.dataTransforms with | some dt => [dt] | none => [])

/-- How often a JSON value equals an alias name of the `From` clause. -/
def countName (frm : List FromEntry) (v : J) : Nat :=
  (frm.filter (fun e => J.s e.name == v)).length

/-- The sources referenced by the `Select` clause
(`Select[*].*.Expression.SourceRef.Source`). -/
def selectSources (q : SQ) : List J :=
  (q.sel.getD []).flatMap SQ.entryExprSources

/-- The sources referenced anywhere in the `Where` clause. -/
def whereSources (q : SQ) : List J :=
  (q.whr.getD []).flatMap (descAllKey "Source")

/-- The sources referenced by the `OrderBy` clause
(`OrderBy[*].Expression.*.Expression.SourceRef.Source`). -/
def orderBySources (q : SQ) : List J :=
  (q.ordBy.getD []).flatMap (fun e =>
    match jGet e "Expression" with
    | some ex => SQ.entryExprSources ex
    | none => [])

/-- P4, alias integrity: every source referenced in `Select`, `Where`
and `OrderBy` matches exactly one `From` alias. -/
def aliasIntegrity (q : SQ) : Bool :=
  (selectSources q ++ whereSources q ++ orderBySources q).all
    (fun v => countName q.frm v == 1)

/-- No select entry is keyed by the given qualifier (the conclusion of
the identifier-last property for a semantic query's `Select`). -/
def selNamesClear (tf : String) (q : SQ) : Bool :=
  (q.sel.getD []).all (fun e => !(jGet e "Name" == some (J.s tf)))

/-- No data-transforms select entry is keyed by the given qualifier. -/
def dtSelectsClear (tf : String) (dt : DT) : Bool :=
  (dt.selects.getD []).all (fun e => !(jGet e "queryName" == some (J.s tf)))

/-- No `queryMetadata.Select` entry is keyed by the given qualifier. -/
def dtMetadataClear (tf : String) (dt : DT) : Bool :=
  match dt.queryMetadata with
  | none => true
  | some m =>
    match jGet m "Select" with
    | some (J.arr l) => l.all (fun e => !(jGet e "Name" == some (J.s tf)))
    | _ => true

/-- No projection references the given qualifier by `queryRef`. -/
def projectionsClear (tf : String) (sv : SV) : Bool :=
  (sv.projections.getD []).all (fun kv =>
    match kv.2 with
    | J.arr l => l.all (fun e => !(jGet e "queryRef" == some (J.s tf)))
    | _ => true)

/-- No `columnProperties` key equals the given qualifier. -/
def columnPropertiesClear (tf : String) (sv : SV) : Bool :=
  (sv.columnProperties.getD []).all (fun kv => !(kv.1 == tf))

/-! ## Concrete inputs for the claims -/

/-- The select entry exactly as claim C1 (spec §8, scenario 1) writes
it: the aggregation object is wrapped in an `Expression` member of the
entry. -/
def c1SelectLiteral : List J :=
  [J.obj [("Name", J.s "Sales.Qty"),
    ("Expression", J.obj [("Measure", J.obj [
      ("Expression", J.obj [("SourceRef", J.obj [("Source", J.s "s")])]),
      ("Property", J.s "Qty")])])]]

/-- Claim C1's query, with the literal entry shape. -/
def c1QueryLiteral : SQ :=
  { frm := [⟨"s", "Sales", 0⟩], sel := some c1SelectLiteral
    whr := none, ordBy := none }

/-- The same select entry in the shape actual layouts use (and the
code's `.*.Expression.SourceRef.Source` paths address): the
aggregation-kind member (`Measure`) sits directly in the entry. -/
def c1SelectActual : List J :=
  [J.obj [("Name", J.s "Sales.Qty"),
    ("Measure", J.obj [
      ("Expression", J.obj [("SourceRef", J.obj [("Source", J.s "s")])]),
      ("Property", J.s "Qty")])]]

/-- Claim C1's query with the actual-layout entry shape. -/
def c1QueryActual : SQ :=
  { frm := [⟨"s", "Sales", 0⟩], sel := some c1SelectActual
    whr := none, ordBy := none }

/-- The outcome claim C1 expects: `From` is exactly the single `Orders`
alias `o`, and the single select entry is keyed `Orders.Count` with
`Property` `Count` and source `o`. -/
def c1ClaimedOutcome (q : SQ) : Bool :=
  q.frm == [⟨"o", "Orders", 0⟩] &&
    (match q.sel with
     | some [e] =>
       jGet e "Name" == some (J.s "Orders.Count") &&
         descAllKey "Property" e == [J.s "Count"] &&
         descAllKey "Source" e == [J.s "o"]
     | _ => false)

/-- What the rewriter actually produces from the literal entry shape:
the alias is regenerated and `Name` rewritten, but `Property` and
`Source` sit one level too deep for the `.*` paths and stay `Qty`/`s`. -/
def c1LiteralResult : SQ :=
  { frm := [⟨"o", "Orders", 0⟩]
    sel := some [J.obj [("Name", J.s "Orders.Count"),
      ("Expression", J.obj [("Measure", J.obj [
        ("Expression", J.obj [("SourceRef", J.obj [("Source", J.s "s")])]),
        ("Property", J.s "Qty")])])]]
    whr := none, ordBy := none }

/-- The rewriter's output on the actual-layout entry shape. -/
def c1ActualResult : SQ :=
  { frm := [⟨"o", "Orders", 0⟩]
    sel := some [J.obj [("Name", J.s "Orders.Count"),
      ("Measure", J.obj [
        ("Expression", J.obj [("SourceRef", J.obj [("Source", J.s "o")])]),
        ("Property", J.s "Count")])]]
    whr := none, ordBy := none }

/-- A query whose `OrderBy` references the old table's alias under a
property other than the old field: alias-integral before a rewrite. -/
def c3Query : SQ :=
  { frm := [⟨"s", "Sales", 0⟩]
    sel := some c1SelectActual
    whr := none
    ordBy := some [J.obj [("Direction", J.i 2),
      ("Expression", J.obj [("Measure", J.obj [
        ("Expression", J.obj [("SourceRef", J.obj [("Source", J.s "s")])]),
        ("Property", J.s "Other")])])]] }

/-- The rewrite's output on `c3Query`: the `Sales` alias is pruned and
replaced while the `OrderBy` entry keeps referencing `s`. -/
def c3Result : SQ :=
  { frm := [⟨"o", "Orders", 0⟩]
    sel := some (c1ActualResult.sel.getD [])
    whr := none
    ordBy := some [J.obj [("Direction", J.i 2),
      ("Expression", J.obj [("Measure", J.obj [
        ("Expression", J.obj [("SourceRef", J.obj [("Source", J.s "s")])]),
        ("Property", J.s "Other")])])]] }

/-- A query whose single `Where` condition holds no `Property` node. -/
def c6WhereQuery : SQ :=
  { frm := [⟨"s", "Sales", 0⟩]
    sel := some []
    whr := some [J.obj [("Condition", J.obj [("Comparison",
      J.obj [("Left", J.obj [])])])]]
    ordBy := none }

/-- A data-transforms document whose `selects` has no entry keyed by the
old qualifier. -/
def c6Dt : DT :=
  { selects := some [J.obj [("queryName", J.s "Other.Field"),
      ("displayName", J.s "Field")]]
    queryMetadata := none
    objects := some [] }

/-- A query for the no-crash part of C6: no `Where`, no `OrderBy`, and
no alias for either the old or the new table. -/
def c6SafeQuery : SQ :=
  { frm := [⟨"c", "Customers", 0⟩]
    sel := some c1SelectActual
    whr := none
    ordBy := none }

/-- Scenario 4's data-transforms document: a single select keyed
`Sales.Qty` whose display name still equals the old field name. -/
def c7Dt : DT :=
  { selects := some [J.obj [
      ("queryName", J.s "Sales.Qty"),
      ("displayName", J.s "Qty"),
      ("expr", J.obj [("Measure", J.obj [
        ("Expression", J.obj [("SourceRef", J.obj [("Entity", J.s "Sales")])]),
        ("Property", J.s "Qty")])])]]
    queryMetadata := none
    objects := some [] }

/-- A filter sub-query whose `Select` is keyed by the old qualifier
(over an unrelated table `X`). -/
def subQueryWithOldName : SQ :=
  { frm := [⟨"x", "X", 0⟩]
    sel := some [J.obj [("Name", J.s "Sales.Qty"),
      ("Measure", J.obj [
        ("Expression", J.obj [("SourceRef", J.obj [("Source", J.s "x")])]),
        ("Property", J.s "Qty")])]]
    whr := none
    ordBy := none }

/-- A filter expression over a property different from the old field. -/
def exprOther : J :=
  J.obj [("Measure", J.obj [
    ("Expression", J.obj [("SourceRef", J.obj [("Entity", J.s "X")])]),
    ("Property", J.s "Other")])]

/-- The parsed sub-documents of C2's visual: the prototype query
references the old field, and a filter entry whose expression names a
different property carries a sub-query keyed by the old qualifier. -/
def c2Doc : DataVisualDoc :=
  { cfg := { visualType := some (J.s "tableEx")
             prototypeQuery := { frm := [⟨"s", "Sales", 0⟩]
                                 sel := some c1SelectActual
                                 whr := none
                                 ordBy := none }
             columnProperties := none
             projections := none
             objects := none }
    filters := [⟨some exprOther, some subQueryWithOldName⟩]
    query := none
    dataTransforms := none }

/-- C4's visual: the old qualifier appears only as the value of a key
named `Junk`, next to a sibling `Name` key — so no identifier key holds
it, yet `find_field`'s any-member-value predicate matches. -/
def c4Rec : VisualRec :=
  { config := cfgToJ
      { visualType := some (J.s "tableEx")
        prototypeQuery := { frm := []
                            sel := some [J.obj [("Name", J.s "Other.Field"),
                              ("Junk", J.s "Sales.Qty")]]
                            whr := none
                            ordBy := none }
        columnProperties := none
        projections := none
        objects := none }
    filters := some (filtersToJ [])
    query := none
    dataTransforms := none }

/-- C4's one-visual container. -/
def c4Layout : Layout :=
  { sections := [[c4Rec]], config := J.null }

/-- C5's top-level `config`: two bookmark nodes, one over `Sales` and
one over `Customers`. -/
def c5Config : J :=
  J.obj [("bookmarks", J.arr [
    J.obj [("Property", J.s "Qty"),
      ("Expression", J.obj [("SourceRef", J.obj [("Entity", J.s "Sales")])])],
    J.obj [("Property", J.s "Qty"),
      ("Expression", J.obj [("SourceRef", J.obj [("Entity", J.s "Customers")])])]])]

/-- C5's layout: no visuals, bookmarks under the top-level config. -/
def c5Layout : Layout :=
  { sections := [[]], config := c5Config }

/-- The top-level config claim C5 expects after the rewrite: the
`Sales` bookmark rewritten, the `Customers` one untouched. -/
def c5ConfigExpected : J :=
  J.obj [("bookmarks", J.arr [
    J.obj [("Property", J.s "Count"),
      ("Expression", J.obj [("SourceRef", J.obj [("Entity", J.s "Orders")])])],
    J.obj [("Property", J.s "Qty"),
      ("Expression", J.obj [("SourceRef", J.obj [("Entity", J.s "Customers")])])]])]

/-- A non-data visual record (a textbox, with the old qualifier even
mentioned in its config so only the type test protects it). -/
def c8TextboxRec : VisualRec :=
  { config := J.obj [("singleVisual", J.obj [
      ("visualType", J.s "textbox"),
      ("objects", J.obj [("general", J.arr [J.obj [("stray", J.s "Sales.Qty"),
        ("Name", J.s "Sales.Qty")]])])])]
    filters := none
    query := none
    dataTransforms := none }

/-- A layout carrying the textbox next to a data visual that the
rewrite mutates. -/
def c8Layout : Layout :=
  { sections := [[c8TextboxRec,
      { config := cfgToJ c2Doc.cfg
        filters := some (filtersToJ [])
        query := none
        dataTransforms := none }]]
    config := J.null }

/-- C9's where condition: the old field compared against a measure of a
second table, so the old alias is referenced by the condition. -/
def c9Cond : J :=
  J.obj [("Condition", J.obj [("Comparison", J.obj [
    ("ComparisonKind", J.i 0),
    ("Left", J.obj [("Column", J.obj [
      ("Expression", J.obj [("SourceRef", J.obj [("Source", J.s "s")])]),
      ("Property", J.s "Qty")])]),
    ("Right", J.obj [("Measure", J.obj [
      ("Expression", J.obj [("SourceRef", J.obj [("Source", J.s "t")])]),
      ("Property", J.s "M")])])])])]

/-- C9's visual: after one rewrite the `Sales` alias survives (the
where condition references it) but is left dead, and the filter
sub-query still mentions the old qualifier, so a second run prunes it. -/
def c9Rec : VisualRec :=
  { config := cfgToJ
      { visualType := some (J.s "tableEx")
        prototypeQuery := { frm := [⟨"s", "Sales", 0⟩, ⟨"t", "Tother", 0⟩]
                            sel := some c1SelectActual
                            whr := some [c9Cond]
                            ordBy := none }
        columnProperties := none
        projections := none
        objects := none }
    filters := some (filtersToJ [⟨some exprOther, some subQueryWithOldName⟩])
    query := none
    dataTransforms := none }

/-- C9's one-visual container. -/
def c9Layout : Layout :=
  { sections := [[c9Rec]], config := J.null }

/-- No data visual of the layout matches the rewrite predicate: every
visual that parses as a data visual fails `find_field`. -/
def layoutNoMatch (old : String) (L : Layout) : Bool :=
  L.sections.all (fun page => page.all (fun v =>
    match dataVisualOfRec v with
    | some d => !(findFieldDoc old d)
    | none => true))

/-- A zip member list with a `SecurityBindings` member. -/
def c10Members : List (String × ZC) :=
  [("Version", ZC.raw "v"),
   ("Report/Layout", ZC.raw "old layout"),
   ("SecurityBindings", ZC.raw "signature"),
   ("[Content_Types].xml", ZC.raw "ct")]

/-- A data visual over an unrelated table that parses but does not
match the `Sales.Qty` predicate (used to witness the no-match
theorems on a concrete container). -/
def tidyRec : VisualRec :=
  { config := cfgToJ
      { visualType := some (J.s "tableEx")
        prototypeQuery := { frm := [⟨"c", "Customers", 0⟩]
                            sel := some [J.obj [("Name", J.s "Customers.Name"),
                              ("Column", J.obj [
                                ("Expression", J.obj [("SourceRef", J.obj [("Source", J.s "c")])]),
                                ("Property", J.s "Name")])]]
                            whr := none
                            ordBy := none }
        columnProperties := none
        projections := none
        objects := none }
    filters := some (filtersToJ [])
    query := none
    dataTransforms := none }

/-- A one-visual container around `tidyRec`. -/
def tidyLayout : Layout :=
  { sections := [[tidyRec]], config := J.null }

/-- A container holding only the non-data textbox visual. -/
def c8WitnessLayout : Layout :=
  { sections := [[c8TextboxRec]], config := J.null }

/-- The sub-documents of C2's visual after its rewrite (the rewrite
succeeds on this input, so the default is never taken). -/
def c2DocOut : DataVisualDoc :=
  (dataVisualDocUpdate c2Doc "Sales.Qty" "Orders.Count" "Sales" "Orders"
    "Qty" "Count").getD c2Doc

/-- The entity references of a data-transforms select entry: the values
at `expr.*.Expression.SourceRef.Entity`. -/
def selExprEntities (e : J) : List J :=
  match jGet e "expr" with
  | some ex => (jChildren ex).filterMap (fun w =>
      (jGet w "Expression").bind (fun x =>
        (jGet x "SourceRef").bind (fun y => jGet y "Entity")))
  | none => []

/-- The property references of a data-transforms select entry: the
values at `expr.*.Property`. -/
def selExprProps (e : J) : List J :=
  match jGet e "expr" with
  | some ex => (jChildren ex).filterMap (fun w => jGet w "Property")
  | none => []

/-- The rewritten data-transforms document of scenario 4 (the rewrite
succeeds on this input, so the default is never taken). -/
def c7DtOut : DT :=
  (DT.updateFieldsVisual c7Dt "Sales.Qty" "Orders.Count" "Sales" "Orders"
    "Qty" "Count").getD c7Dt

/-! # Lemmas and theorems settling the claims -/

/-- C1.  Counterexample: on the claim's literal query — the select
entry's aggregation wrapped in an `Expression` member — the rewriter
regenerates the alias and rewrites `Name`, but the `.*`-paths to
`Property` and `Source` miss the extra nesting level, so the produced
select entry keeps `Property` `Qty` and `Source` `s`, not the claimed
`Count`/`o`. -/
theorem c1_counterexample :
    SQ.updateFieldsQ c1QueryLiteral "Sales.Qty" "Orders.Count" = some c1LiteralResult ∧
      c1ClaimedOutcome c1LiteralResult = false :=
  ⟨by decide, by decide⟩

/-- C1, amended: with the select entry in the shape actual layouts use
— the aggregation-kind member directly in the entry — the rewrite of
`Sales.Qty` to `Orders.Count` produces exactly the claimed outcome:
`From = [{o, Orders}]`, `Name = Orders.Count`, `Property = Count`,
`Source = o`. -/
theorem c1_amended :
    SQ.updateFieldsQ c1QueryActual "Sales.Qty" "Orders.Count" = some c1ActualResult ∧
      c1ClaimedOutcome c1ActualResult = true :=
  ⟨by decide, by decide⟩

/-- C3.  Counterexample: a query whose `OrderBy` references the old
table's alias under a property other than the rewritten field satisfies
alias integrity before the run, yet after the run the alias has been
pruned while the `OrderBy` entry still references it. -/
theorem c3_counterexample :
    aliasIntegrity c3Query = true ∧
      SQ.updateFieldsQ c3Query "Sales.Qty" "Orders.Count" = some c3Result ∧
      aliasIntegrity c3Result = false :=
  ⟨by decide, by decide, by decide⟩

/-- C6.  Counterexample: the rewriter does raise on a `Where` condition
holding no `Property` node (`find("$..Property")[0]` in
`_update_where_table_alias`), and the visual.py data-transforms
rewriter raises on a `selects` list with no entry matching the old
`queryName` (`find(...)[0]` in `_update_selects_display_names`). -/
theorem c6_counterexample :
    SQ.updateFieldsQ c6WhereQuery "Sales.Qty" "Orders.Count" = none ∧
      DT.updateFieldsVisual c6Dt "Sales.Qty" "Orders.Count" "Sales" "Orders" "Qty" "Count" =
        none :=
  ⟨by decide, by decide⟩

/-- C10.  Counterexample: the temp archive name is derived from the
report's *basename* and joined to nothing, so for a report under
`/a/b/` the temp file is created relative to the working directory —
its directory is not the original's directory. -/
theorem c10_counterexample :
    tempFilepath "/a/b/Report.pbix" = "Report Temp.pbix" ∧
      dirnameStr (tempFilepath "/a/b/Report.pbix") = "" ∧
      dirnameStr "/a/b/Report.pbix" = "/a/b" ∧
      ¬ ("" : String) = "/a/b" :=
  ⟨by decide, by decide, by decide, by decide⟩

/-- A visual on which the predicate does not match is handed back
untouched with a zero counter. -/
theorem dataVisualUpdate_nomatch (r : VisualRec) (old new : String)
    (h : ∀ d, dataVisualOfRec r = some d → findFieldDoc old d = false) :
    ∀ p, dataVisualUpdate r old new = some p → p = (r, 0) := by
  intro p hp
  unfold dataVisualUpdate at hp
  cases hd : dataVisualOfRec r with
  | none => rw [hd] at hp; exact absurd hp (by simp)
  | some d =>
    rw [hd] at hp
    cases ho : splitQualifier old with
    | none => rw [ho] at hp; exact absurd hp (by simp)
    | some po =>
      rw [ho] at hp
      cases hn : splitQualifier new with
      | none => rw [hn] at hp; exact absurd hp (by simp)
      | some pn =>
        rw [hn] at hp
        have hf := h d hd
        simp [hf] at hp
        exact hp.symm

/-- The per-visual step returns the record unchanged when it is a
non-data visual or when the predicate does not match. -/
theorem updateVisual_noop (v : VisualRec) (old new : String)
    (h : ∀ d, dataVisualOfRec v = some d → findFieldDoc old d = false) :
    ∀ p, updateVisual v old new = some p → p = (v, 0) := by
  intro p hp
  unfold updateVisual at hp
  by_cases hd : isDataVisual v = true
  · rw [if_pos hd] at hp
    exact dataVisualUpdate_nomatch v old new h p hp
  · rw [if_neg hd] at hp
    simpa using hp.symm

/-- `mapM` over `Option`: when every element maps to a unique image,
the result is the pointwise map. -/
theorem optMapM_congr {α β : Type} (f : α → Option β) (g : α → β) :
    ∀ (l : List α), (∀ x ∈ l, ∀ y, f x = some y → y = g x) →
      ∀ l', l.mapM f = some l' → l' = l.map g := by
  intro l
  induction l with
  | nil => intro _ l' h'; simp only [List.mapM_nil] at h'; simp at h'; simp [h'.symm]
  | cons x xs ih =>
    intro h l' h'
    rw [List.mapM_cons] at h'
    obtain ⟨y, hy, rest⟩ := Option.bind_eq_some.mp h'
    obtain ⟨ys, hys, hcons⟩ := Option.bind_eq_some.mp rest
    have h1 : y = g x := h x (by simp) y hy
    have h2 : ys = xs.map g := ih (fun a ha => h a (by simp [ha])) ys hys
    simp only [pure, Option.some_inj] at hcons
    simp [← hcons, h1, h2]

/-- `mapM` over `Option`, positionally: the `i`-th output comes from the
`i`-th input. -/
theorem optMapM_get {α β : Type} (f : α → Option β) :
    ∀ (l : List α) (l' : List β), l.mapM f = some l' →
      ∀ (i : Nat) (x : α), l[i]? = some x →
        ∃ y, l'[i]? = some y ∧ f x = some y := by
  intro l
  induction l with
  | nil => intro l' _ i x hx; simp at hx
  | cons a xs ih =>
    intro l' h' i x hx
    rw [List.mapM_cons] at h'
    obtain ⟨y, hy, rest⟩ := Option.bind_eq_some.mp h'
    obtain ⟨ys, hys, hcons⟩ := Option.bind_eq_some.mp rest
    simp only [pure, Option.some_inj] at hcons
    cases i with
    | zero =>
      simp only [List.getElem?_cons_zero, Option.some_inj] at hx
      exact ⟨y, by simp [← hcons], by rw [hx] at hy; exact hy⟩
    | succ n =>
      simp only [List.getElem?_cons_succ] at hx
      obtain ⟨z, hz1, hz2⟩ := ih ys hys n x hx
      exact ⟨z, by simp [← hcons, hz1], hz2⟩

/-- When no data visual of the layout matches the predicate, the run
returns the layout unchanged with a zero counter. -/
theorem layout_noop (L : Layout) (old new : String)
    (hb : layoutNoMatch old L = true) :
    ∀ r, Layout.updateFields L old new = some r → r = (L, 0) := by
  have h : ∀ page ∈ L.sections, ∀ v ∈ page, ∀ d,
      dataVisualOfRec v = some d → findFieldDoc old d = false := by
    intro page hp v hv d hd
    simp only [layoutNoMatch, List.all_eq_true] at hb
    have := hb page hp v hv
    rw [hd] at this
    simpa using this
  clear hb
  obtain ⟨secs, cfg⟩ := L
  intro r hr
  unfold Layout.updateFields at hr
  obtain ⟨pages, hpages, hret⟩ := Option.bind_eq_some.mp hr
  have hpg : pages = secs.map (fun vs => vs.map (fun v => (v, 0))) := by
    refine optMapM_congr _ _ secs ?_ pages hpages
    intro vs hvs pv hpv
    refine optMapM_congr _ _ vs ?_ pv hpv
    intro v hv y hy
    exact updateVisual_noop v old new (fun d hd => h vs hvs v hv d hd) y hy
  simp only [pure, Option.some_inj] at hret
  rw [← hret, hpg]
  simp only [Prod.mk.injEq, Layout.mk.injEq]
  have hrow : ∀ vs : List VisualRec,
      List.map Prod.fst (List.map (fun v => (v, (0 : Nat))) vs) = vs := by
    intro vs
    induction vs with
    | nil => rfl
    | cons a t ih => simpa using ih
  have hsum : ∀ vs : List VisualRec,
      (List.map Prod.snd (List.map (fun v => (v, (0 : Nat))) vs)).sum = 0 := by
    intro vs
    induction vs with
    | nil => rfl
    | cons a t ih => simpa using ih
  have houter : ∀ ss : List (List VisualRec),
      List.map (List.map Prod.fst ∘ fun vs => List.map (fun v => (v, (0 : Nat))) vs) ss = ss := by
    intro ss
    induction ss with
    | nil => rfl
    | cons a t ih => simp only [List.map_cons, Function.comp_apply, hrow, ih]
  refine ⟨⟨?_, trivial⟩, ?_⟩
  · rw [List.map_map]
    exact houter secs
  · simp only [List.map_map]
    apply List.sum_eq_zero
    intro x hx
    simp only [List.mem_map, Function.comp] at hx
    obtain ⟨vs, _, hvs⟩ := hx
    rw [← hvs]
    exact hsum vs

/-- C4.  Counterexample: in this container the old qualifier appears
only under a key named `Junk` (never at a `queryRef`/`Name`/`queryName`
key), yet `find_field`'s any-member-value predicate matches, the visual
is mutated (a fresh `Orders` alias is appended to its `From`), the
counter becomes 1, and the container is re-emitted. -/
theorem c4_counterexample :
    (VisualRec.docs c4Rec).all (fun d => !(idKeyHolds "Sales.Qty" d)) = true ∧
      (replaceField c4Layout "Sales.Qty" "Orders.Count").map
        (fun t => (decide (t.1 = c4Layout), t.2.1, t.2.2)) = some (false, 1, true) :=
  ⟨by decide, by decide⟩

/-- C4, amended: when no data visual matches `find_field`'s actual
predicate — no node carrying one of the keys `queryRef`/`Name`/
`queryName` has *any* member value equal to the old qualifier — the run
leaves the layout identical, the counter is zero, and `write_file` is
not invoked. -/
theorem c4_amended (L : Layout) (old new : String) (L' : Layout) (c : Nat) (w : Bool)
    (hrep : replaceField L old new = some (L', c, w))
    (hb : layoutNoMatch old L = true) :
    L' = L ∧ c = 0 ∧ w = false := by
  obtain ⟨r, hr, heq⟩ := Option.map_eq_some'.mp hrep
  have h0 := layout_noop L old new hb r hr
  rw [h0] at heq
  simp only [Prod.mk.injEq] at heq
  exact ⟨heq.1.symm, heq.2.1.symm, by rw [← heq.2.2]; rfl⟩

/-- Witness for the amended C4 on a concrete non-matching container. -/
theorem c4_amended_witness :
    tidyLayout = tidyLayout ∧ (0 : Nat) = 0 ∧ (false : Bool) = false :=
  c4_amended tidyLayout "Sales.Qty" "Orders.Count" tidyLayout 0 false
    (by decide) (by decide)

/-- C5.  Counterexample: `Report.update_fields` carries no bookmark
walk at all — on a container whose top-level config holds the claim's
two bookmark nodes, the run returns the layout unchanged (counter 0)
instead of rewriting the `Sales` bookmark as the claim describes. -/
theorem c5_counterexample :
    Layout.updateFields c5Layout "Sales.Qty" "Orders.Count" = some (c5Layout, 0) ∧
      ¬ c5Config = c5ConfigExpected :=
  ⟨by decide, by decide⟩

/-- C5, amended: the report orchestrator never reads or writes the
top-level `config` (and hence no bookmark under it): every successful
run preserves it exactly. -/
theorem c5_amended (L : Layout) (old new : String) (r : Layout × Nat)
    (hr : Layout.updateFields L old new = some r) : r.1.config = L.config := by
  unfold Layout.updateFields at hr
  obtain ⟨pages, _, hret⟩ := Option.bind_eq_some.mp hr
  simp only [pure, Option.some_inj] at hret
  rw [← hret]

/-- Witness for the amended C5 on the concrete bookmark container. -/
theorem c5_amended_witness : (c5Layout, 0).1.config = c5Layout.config :=
  c5_amended c5Layout "Sales.Qty" "Orders.Count" (c5Layout, 0) (by decide)

/-- C8: a visual whose type is one of the non-data types — or whose
`singleVisual.visualType` is absent — is never rewritten: its record in
the layout tree is identical before and after the field-rewrite pass. -/
theorem c8_theorem (L : Layout) (old new : String) (L' : Layout) (c : Nat)
    (hr : Layout.updateFields L old new = some (L', c))
    (i j : Nat) (v : VisualRec)
    (hv : (L.sections[i]?.bind (fun page => page[j]?)) = some v)
    (hnd : isDataVisual v = false) :
    (L'.sections[i]?.bind (fun page => page[j]?)) = some v := by
  unfold Layout.updateFields at hr
  obtain ⟨pages, hpages, hret⟩ := Option.bind_eq_some.mp hr
  simp only [pure, Option.some_inj, Prod.mk.injEq] at hret
  obtain ⟨page, hpage, hvj⟩ := Option.bind_eq_some.mp hv
  obtain ⟨pv, hpv1, hpv2⟩ := optMapM_get _ L.sections pages hpages i page hpage
  obtain ⟨y, hy1, hy2⟩ := optMapM_get _ page pv hpv2 j v hvj
  have hyv : y = (v, 0) := by
    unfold updateVisual at hy2
    rw [hnd] at hy2
    simpa using hy2.symm
  have hsec : L'.sections = pages.map (List.map Prod.fst) := by
    rw [← hret.1]
  rw [hsec, List.getElem?_map, hpv1, Option.map_some']
  simp [hy1, hyv]

/-- Witness for C8 on a one-textbox container. -/
theorem c8_theorem_witness :
    (c8WitnessLayout.sections[0]?.bind (fun page => page[0]?)) = some c8TextboxRec :=
  c8_theorem c8WitnessLayout "Sales.Qty" "Orders.Count" c8WitnessLayout 0
    (by decide) 0 0 c8TextboxRec (by decide) (by decide)

/-- C9.  Counterexample: on this container the first rewrite keeps the
`Sales` alias (its `Where` condition references it) but leaves it dead,
and the filter sub-query still mentions the old qualifier; the second
run of the same rewrite therefore matches again and prunes the alias —
the layout after two applications differs from the layout after one. -/
theorem c9_counterexample :
    ((Layout.updateFields c9Layout "Sales.Qty" "Orders.Count").bind
      (fun r1 => (Layout.updateFields r1.1 "Sales.Qty" "Orders.Count").map
        (fun r2 => decide (r2.1 = r1.1)))) = some false := by
  decide

/-- C9, amended: applying the rewrite twice equals applying it once
*provided* the first application leaves no visual matching the
predicate; in general a second application can mutate further (pruning
a `From` alias the first run left dead). -/
theorem c9_amended (L : Layout) (old new : String) (L1 : Layout) (c1 : Nat)
    (_ : Layout.updateFields L old new = some (L1, c1))
    (hb : layoutNoMatch old L1 = true)
    (r2 : Layout × Nat) (h2 : Layout.updateFields L1 old new = some r2) :
    r2.1 = L1 := by
  rw [layout_noop L1 old new hb r2 h2]

/-- Witness for the amended C9 on a concrete container. -/
theorem c9_amended_witness :
    ((tidyLayout, 0) : Layout × Nat).1 = tidyLayout :=
  c9_amended tidyLayout "Sales.Qty" "Orders.Count" tidyLayout 0
    (by decide) (by decide) (tidyLayout, 0) (by decide)

/-- `find?` over a list whose value at key `k` has been mapped. -/
theorem findModifySame (l : List (String × J)) (k : String) (f : J → J) :
    ((l.map (fun kv => if kv.1 == k then (kv.1, f kv.2) else kv)).find?
      (fun kv => kv.1 == k)).map (·.2) =
    ((l.find? (fun kv => kv.1 == k)).map (·.2)).map f := by
  induction l with
  | nil => simp
  | cons kv xs ih =>
    by_cases hk : kv.1 = k
    · simp [List.find?, hk]
    · simp only [List.find?, List.map_cons, if_neg (by simp [hk] : ¬(kv.1 == k) = true)]
      rw [show (kv.1 == k) = false by simp [hk]]
      simpa using ih

/-- `find?` at another key is unaffected by mapping the value at `k`. -/
theorem findModifyNe (l : List (String × J)) (k k' : String) (f : J → J)
    (h : ¬ k' = k) :
    ((l.map (fun kv => if kv.1 == k then (kv.1, f kv.2) else kv)).find?
      (fun kv => kv.1 == k')).map (·.2) =
    (l.find? (fun kv => kv.1 == k')).map (·.2) := by
  induction l with
  | nil => simp
  | cons kv xs ih =>
    by_cases hk : kv.1 = k
    · have hk2 : (kv.1 == k') = false := by
        simp only [beq_eq_false_iff_ne, ne_eq]
        intro hc
        exact h (by rw [← hc, hk])
      simp only [List.find?, List.map_cons, if_pos (by simp [hk] : (kv.1 == k) = true), hk2]
      simpa using ih
    · by_cases hk2 : kv.1 = k'
      · have hne : ¬ ((kv.1 == k) = true) := by simp [hk]
        rw [List.map_cons, if_neg hne]
        have hpos : ((kv.1 == k') = true) := by simp [hk2]
        simp [List.find?, hpos]
      · simp only [List.find?, List.map_cons, if_neg (by simp [hk] : ¬(kv.1 == k) = true)]
        rw [show (kv.1 == k') = false by simp [hk2]]
        simpa using ih

/-- `setKey` is the constant-function case of `jModify`. -/
theorem setKey_eq_jModify (e : J) (k : String) (v : J) :
    setKey e k v = jModify e k (fun _ => v) := by
  cases e <;> rfl

/-- `jModify` maps the value at the modified key. -/
theorem jGet_jModify_same (e : J) (k : String) (f : J → J) :
    jGet (jModify e k f) k = (jGet e k).map f := by
  cases e with
  | obj l => simp only [jGet, jModify]; exact findModifySame l k f
  | s v => rfl
  | i v => rfl
  | b v => rfl
  | null => rfl
  | arr l => rfl

/-- `jModify` leaves other keys unchanged. -/
theorem jGet_jModify_ne (e : J) (k k' : String) (f : J → J) (h : ¬ k' = k) :
    jGet (jModify e k f) k' = jGet e k' := by
  cases e with
  | obj l => simp only [jGet, jModify]; exact findModifyNe l k k' f h
  | s v => rfl
  | i v => rfl
  | b v => rfl
  | null => rfl
  | arr l => rfl

/-- `setKey` overwrites the value found at an existing key. -/
theorem jGet_setKey_same (e : J) (k : String) (v : J)
    (h : (jGet e k).isSome) : jGet (setKey e k v) k = some v := by
  rw [setKey_eq_jModify, jGet_jModify_same]
  cases hg : jGet e k with
  | none => rw [hg] at h; simp at h
  | some w => simp

/-- `setKey` leaves other keys unchanged. -/
theorem jGet_setKey_ne (e : J) (k k' : String) (v : J) (h : ¬ k' = k) :
    jGet (setKey e k v) k' = jGet e k' := by
  rw [setKey_eq_jModify]
  exact jGet_jModify_ne e k k' _ h

/-- After a rewrite step that renames key `key` from the old qualifier
to the new one on every matching entry, no entry matches the old
qualifier (the identifier-last discipline). -/
theorem updKey_clear (l : List J) (key tfo tfn : String) (hne : ¬ tfo = tfn) :
    ∀ e ∈ l.map (fun e => if jGet e key == some (J.s tfo)
        then setKey e key (J.s tfn) else e),
      (jGet e key == some (J.s tfo)) = false := by
  intro e he
  simp only [List.mem_map] at he
  obtain ⟨e0, _, he0⟩ := he
  by_cases hm : (jGet e0 key == some (J.s tfo)) = true
  · have heq : jGet e0 key = some (J.s tfo) := by simpa using hm
    rw [← he0, if_pos hm]
    have hsome : (jGet e0 key).isSome := by rw [heq]; rfl
    rw [jGet_setKey_same e0 key (J.s tfn) hsome]
    simp only [beq_eq_false_iff_ne, ne_eq, Option.some.injEq]
    intro hc
    injection hc with hc2
    exact hne hc2.symm
  · rw [← he0, if_neg hm]
    simpa using hm

/-- The shape of a successful semantic rewrite: the final `Select` is
the identifier pass applied to some intermediate list. -/
theorem sq_sel_shape (q : SQ) (tfo tfn tableOld tableNew fo fn : String) (q' : SQ)
    (h : SQ.updateFields q tfo tfn tableOld tableNew fo fn = some q') :
    ∃ sel4, q'.sel = SQ.updateSelectTableFields sel4 tfo tfn := by
  unfold SQ.updateFields at h
  simp only [] at h
  split at h
  · exact absurd h (by simp)
  · split at h
    · exact absurd h (by simp)
    · simp only [Option.some_inj] at h
      exact ⟨_, by rw [← h]⟩

/-- After a successful semantic rewrite of `tfo` to a different `tfn`,
no select entry is keyed by `tfo`. -/
theorem sq_names_clear (q : SQ) (tfo tfn tableOld tableNew fo fn : String) (q' : SQ)
    (hne : ¬ tfo = tfn)
    (h : SQ.updateFields q tfo tfn tableOld tableNew fo fn = some q') :
    selNamesClear tfo q' = true := by
  obtain ⟨sel4, hsel⟩ := sq_sel_shape q tfo tfn tableOld tableNew fo fn q' h
  unfold selNamesClear
  rw [hsel, List.all_eq_true]
  intro e he
  cases sel4 with
  | none => simp [SQ.updateSelectTableFields] at he
  | some l =>
    simp only [SQ.updateSelectTableFields, Option.map_some', Option.getD_some] at he
    have := updKey_clear l "Name" tfo tfn hne e he
    simpa using this

/-- Membership form of `mapM` over `Option`. -/
theorem optMapM_mem {α β : Type} (f : α → Option β) :
    ∀ (l : List α) (l' : List β), l.mapM f = some l' →
      ∀ y ∈ l', ∃ x ∈ l, f x = some y := by
  intro l
  induction l with
  | nil =>
    intro l' h y hy
    rw [List.mapM_nil] at h
    simp only [pure, Option.some_inj] at h
    rw [← h] at hy
    simp at hy
  | cons a xs ih =>
    intro l' h y hy
    rw [List.mapM_cons] at h
    obtain ⟨z, hz, rest⟩ := Option.bind_eq_some.mp h
    obtain ⟨ys, hys, hcons⟩ := Option.bind_eq_some.mp rest
    simp only [pure, Option.some_inj] at hcons
    rw [← hcons] at hy
    cases hy with
    | head => exact ⟨a, by simp, hz⟩
    | tail _ hmem =>
      obtain ⟨x, hx1, hx2⟩ := ih ys hys y hmem
      exact ⟨x, by simp [hx1], hx2⟩

/-- Erasing the (unique, by key-nodup) entry at a key leaves no entry
with that key. -/
theorem erasePKeys (cp : List (String × J)) (old : String)
    (h : (cp.map Prod.fst).Nodup) :
    ∀ kv ∈ cp.eraseP (fun kv => kv.1 == old), (kv.1 == old) = false := by
  induction cp with
  | nil => simp
  | cons a rest ih =>
    simp only [List.map_cons, List.nodup_cons] at h
    intro kv hkv
    by_cases ha : (a.1 == old) = true
    · simp only [List.eraseP_cons, ha, cond_true] at hkv
      simp only [beq_eq_false_iff_ne, ne_eq]
      intro hceq
      have haeq : a.1 = old := by simpa using ha
      exact h.1 (by rw [haeq, ← hceq]; exact List.mem_map_of_mem Prod.fst hkv)
    · have haf : (a.1 == old) = false := by simpa using ha
      simp only [List.eraseP_cons, haf, cond_false] at hkv
      cases hkv with
      | head => simpa using ha
      | tail _ hmem => exact ih h.2 kv hmem

/-- `cp[new] = cp.pop(old)` leaves no `columnProperties` key equal to
the old qualifier (keys are unique: Python dictionaries cannot carry
duplicates). -/
theorem cpUpdate_clear (cp : List (String × J)) (old new : String)
    (hnodup : (cp.map Prod.fst).Nodup) (hne : ¬ old = new) :
    ∀ kv ∈ SV.cpUpdate cp old new, (kv.1 == old) = false := by
  unfold SV.cpUpdate
  cases hf : (cp.find? (fun kv => kv.1 == old)).map (·.2) with
  | none =>
    intro kv hkv
    have hf0 : cp.find? (fun kv => kv.1 == old) = none := by
      cases hq : cp.find? (fun kv => kv.1 == old) with
      | none => rfl
      | some x => rw [hq] at hf; simp at hf
    simpa using List.find?_eq_none.mp hf0 kv hkv
  | some v =>
    intro kv hkv
    simp only [] at hkv
    by_cases hany : ((cp.eraseP (fun kv => kv.1 == old)).any
        (fun kv => kv.1 == new)) = true
    · rw [if_pos hany] at hkv
      simp only [List.mem_map] at hkv
      obtain ⟨kv0, hkv0, heq⟩ := hkv
      have hkey : kv.1 = kv0.1 := by
        rw [← heq]; by_cases hn : (kv0.1 == new) = true
        · rw [if_pos hn]
        · rw [if_neg hn]
      rw [hkey]
      exact erasePKeys cp old hnodup kv0 hkv0
    · rw [if_neg hany] at hkv
      rcases List.mem_append.mp hkv with hmem | hmem
      · exact erasePKeys cp old hnodup kv hmem
      · simp only [List.mem_singleton] at hmem
        rw [hmem]
        simpa using fun hc => hne hc.symm

/-- The two expression-rewriting filter passes do not touch the
`filter` sub-document of an entry. -/
theorem updTables_filt (fs : List FilterEntry) (fOld : String) (tn : J) (i : Nat) :
    ((FilterEntry.updTables fs fOld tn)[i]?).map FilterEntry.filt = (fs[i]?).map FilterEntry.filt := by
  unfold FilterEntry.updTables
  rw [List.getElem?_map]
  cases fs[i]? with
  | none => rfl
  | some e =>
    simp only [Option.map_some']
    by_cases hm : FilterEntry.feMatches fOld e = true
    · rw [if_pos hm]
    · rw [if_neg hm]

/-- As `updTables_filt`, for the property pass. -/
theorem updFields_filt (fs : List FilterEntry) (fOld fNew : String) (i : Nat) :
    ((FilterEntry.updFields fs fOld fNew)[i]?).map FilterEntry.filt = (fs[i]?).map FilterEntry.filt := by
  unfold FilterEntry.updFields
  rw [List.getElem?_map]
  cases fs[i]? with
  | none => rfl
  | some e =>
    simp only [Option.map_some']
    by_cases hm : FilterEntry.feMatches fOld e = true
    · rw [if_pos hm]
    · rw [if_neg hm]

/-- After the filters pass, the sub-query of every entry whose
expression matched the old field carries no select keyed by the old
qualifier. -/
theorem filters_clear (fs fs' : List FilterEntry)
    (tfo tfn tableOld tableNew fo fn : String) (hne : ¬ tfo = tfn)
    (h : FilterEntry.updateFilters fs tfo tfn tableOld tableNew fo fn = some fs') :
    ∀ (i : Nat) (e e' : FilterEntry), fs[i]? = some e → fs'[i]? = some e' →
      FilterEntry.feMatches fo e = true →
      ∀ q, e'.filt = some q → selNamesClear tfo q = true := by
  intro i e e' he he' hm q hq
  unfold FilterEntry.updateFilters at h
  obtain ⟨fs1, h1, hrest⟩ := Option.bind_eq_some.mp h
  simp only [pure, Option.some_inj] at hrest
  obtain ⟨e1, he1, hstep⟩ := optMapM_get _ fs fs1 h1 i e he
  have hfilt : some e'.filt = some e1.filt := by
    have t1 := updFields_filt (FilterEntry.updTables fs1 fo (J.s tableNew)) fo fn i
    have t2 := updTables_filt fs1 fo (J.s tableNew) i
    rw [← hrest] at he'
    rw [he', Option.map_some'] at t1
    rw [he1, Option.map_some'] at t2
    rw [t2] at t1
    exact t1
  simp only [Option.some_inj] at hfilt
  rw [if_pos hm] at hstep
  cases hef : e.filt with
  | none =>
    rw [hef] at hstep
    simp only [Option.some_inj] at hstep
    rw [← hstep, hef] at hfilt
    rw [hfilt] at hq
    simp at hq
  | some q0 =>
    rw [hef] at hstep
    obtain ⟨q1, hq1, hq1e⟩ := Option.map_eq_some'.mp hstep
    rw [← hq1e] at hfilt
    simp only at hfilt
    rw [hfilt] at hq
    simp only [Option.some_inj] at hq
    rw [← hq]
    exact sq_names_clear q0 tfo tfn tableOld tableNew fo fn q1 hne hq1

/-- After the report-variant data-transforms rewrite of `tfo` to a
different `tfn`, no select entry is keyed by `tfo` and no
`queryMetadata.Select` entry is named `tfo`. -/
theorem dt_report_clear (dt : DT) (tfo tfn tn fo fn : String) (hne : ¬ tfo = tfn) :
    dtSelectsClear tfo (DT.updateFieldsReport dt tfo tfn tn fo fn) = true ∧
      dtMetadataClear tfo (DT.updateFieldsReport dt tfo tfn tn fo fn) = true := by
  unfold DT.updateFieldsReport
  simp only []
  constructor
  · unfold dtSelectsClear
    cases h3 : DT.updSelectsFields (DT.updSelectsTables dt.selects tfo (J.s tn)) tfo (J.s fn) with
    | none => simp [DT.updSelectsQueryNames, h3]
    | some l =>
      simp only [DT.updSelectsQueryNames, h3, Option.map_some', Option.getD_some,
        List.all_eq_true]
      intro e he
      simp only [DT.selMatches] at he
      have := updKey_clear l "queryName" tfo tfn hne e he
      simpa [DT.selMatches] using this
  · unfold dtMetadataClear
    cases hmd : DT.updMdFiltersProps (DT.updMdFiltersTables dt.queryMetadata fo (J.s tn)) fo fn with
    | none => simp [DT.updMdSelectNames, hmd]
    | some m7 =>
      simp only [DT.updMdSelectNames, hmd, Option.map_some']
      rw [jGet_jModify_same]
      cases hsv : jGet m7 "Select" with
      | none => simp
      | some sv =>
        simp only [Option.map_some']
        cases sv with
        | arr l =>
          simp only [List.all_eq_true]
          intro e he
          have := updKey_clear l "Name" tfo tfn hne e he
          simpa using this
        | s v => simp
        | i v => simp
        | b v => simp
        | null => simp
        | obj l => simp

/-- After the config rewrite of `tfo` to a different `tfn`, the
prototype query, projections and column properties carry no reference
keyed by `tfo`. -/
theorem sv_clear (sv sv' : SV) (tfo tfn tableOld tableNew fo fn : String)
    (hne : ¬ tfo = tfn)
    (hnodup : ((sv.columnProperties.getD []).map Prod.fst).Nodup)
    (h : SV.updateFields sv tfo tfn tableOld tableNew fo fn = some sv') :
    selNamesClear tfo sv'.prototypeQuery = true ∧
      projectionsClear tfo sv' = true ∧
      columnPropertiesClear tfo sv' = true := by
  unfold SV.updateFields at h
  obtain ⟨q', hq, hrest⟩ := Option.bind_eq_some.mp h
  simp only [pure, Option.some_inj] at hrest
  refine ⟨?_, ?_, ?_⟩
  · rw [← hrest]
    exact sq_names_clear sv.prototypeQuery tfo tfn tableOld tableNew fo fn q' hne hq
  · rw [← hrest]
    unfold projectionsClear
    cases hp : sv.projections with
    | none => simp
    | some pl =>
      simp only [Option.map_some', Option.getD_some, List.all_eq_true]
      intro kv hkv
      simp only [List.mem_map] at hkv
      obtain ⟨kv0, _, hkv0⟩ := hkv
      rw [← hkv0]
      simp only []
      cases kv0.2 with
      | arr l =>
        simp only [updQueryRefVal, List.all_eq_true]
        intro e he
        have := updKey_clear l "queryRef" tfo tfn hne e he
        simpa using this
      | s v => simp [updQueryRefVal]
      | i v => simp [updQueryRefVal]
      | b v => simp [updQueryRefVal]
      | null => simp [updQueryRefVal]
      | obj l => simp [updQueryRefVal]
  · rw [← hrest]
    unfold columnPropertiesClear
    cases hc : sv.columnProperties with
    | none => simp
    | some cp =>
      simp only [Option.map_some', Option.getD_some, List.all_eq_true]
      intro kv hkv
      rw [hc] at hnodup
      simp only [Option.getD_some] at hnodup
      have := cpUpdate_clear cp tfo tfn hnodup hne kv hkv
      simpa using this

/-- C2, amended: after a completed rewrite of a mutated visual (with
distinct qualifiers), no select `Name` in the prototype query or in any
query command, no `selects.queryName` or `queryMetadata.Select.Name`,
no `projections.queryRef` and no `columnProperties` key equals the old
qualifier; select names inside a filter's sub-query are likewise
cleared for the filter entries whose expression property matches the
old field (sub-queries of non-matching filter entries are not
visited — the counterexample shows the original claim fails there). -/
theorem c2_amended (d d' : DataVisualDoc)
    (old new tableOld tableNew fOld fNew : String)
    (hne : ¬ old = new)
    (hnodup : ((d.cfg.columnProperties.getD []).map Prod.fst).Nodup)
    (hupd : dataVisualDocUpdate d old new tableOld tableNew fOld fNew = some d') :
    selNamesClear old d'.cfg.prototypeQuery = true ∧
      projectionsClear old d'.cfg = true ∧
      columnPropertiesClear old d'.cfg = true ∧
      (∀ qd, d'.query = some qd → ∀ q ∈ qd.commands, selNamesClear old q = true) ∧
      (∀ dt, d'.dataTransforms = some dt →
        dtSelectsClear old dt = true ∧ dtMetadataClear old dt = true) ∧
      (∀ (i : Nat) (e e' : FilterEntry), d.filters[i]? = some e →
        d'.filters[i]? = some e' → FilterEntry.feMatches fOld e = true →
        ∀ q, e'.filt = some q → selNamesClear old q = true) := by
  unfold dataVisualDocUpdate at hupd
  obtain ⟨sv', hsv, h2⟩ := Option.bind_eq_some.mp hupd
  simp only [] at h2
  obtain ⟨qd', hqd, h3⟩ := Option.bind_eq_some.mp h2
  obtain ⟨fs', hfs, h4⟩ := Option.bind_eq_some.mp h3
  simp only [pure, Option.some_inj] at h4
  obtain ⟨hc1, hc2, hc3⟩ := sv_clear d.cfg sv' old new tableOld tableNew fOld fNew hne hnodup hsv
  refine ⟨?_, ?_, ?_, ?_, ?_, ?_⟩
  · rw [← h4]; exact hc1
  · rw [← h4]; exact hc2
  · rw [← h4]; exact hc3
  · intro qd hq' q hq
    rw [← h4] at hq'
    simp only [] at hq'
    unfold queryStep at hqd
    cases hdq : d.query with
    | none => rw [hdq] at hqd; simp only [Option.some_inj] at hqd; rw [← hqd] at hq'; simp at hq'
    | some qd0 =>
      rw [hdq] at hqd
      obtain ⟨qd1, hqd1, hqd1e⟩ := Option.map_eq_some'.mp hqd
      rw [← hqd1e] at hq'
      simp only [Option.some_inj] at hq'
      unfold QueryDoc.updateFields at hqd1
      obtain ⟨cmds, hcmds, hmk⟩ := Option.map_eq_some'.mp hqd1
      obtain ⟨q0, _, hq0⟩ := optMapM_mem _ qd0.commands cmds hcmds q (by
        rw [← hq', ← hmk] at hq; exact hq)
      exact sq_names_clear q0 old new tableOld tableNew fOld fNew q hne hq0
  · intro dt hdt
    rw [← h4] at hdt
    simp only [] at hdt
    obtain ⟨dt0, _, hdt0⟩ := Option.map_eq_some'.mp hdt
    rw [← hdt0]
    exact dt_report_clear dt0 old new tableNew fOld fNew hne
  · intro i e e' he he' hm q hq
    rw [← h4] at he'
    simp only [] at he'
    exact filters_clear d.filters fs' old new tableOld tableNew fOld fNew hne hfs
      i e e' he he' hm q hq

/-- C2.  Counterexample: the rewriter mutates C2's visual (the counter
comes back 1), yet the re-encoded filters still contain a `Select`
entry whose `Name` equals the old qualifier — the filter entry's
expression names a different property, so its sub-query is skipped,
and the claimed "no Select entry's Name anywhere in the visual"
conclusion fails. -/
theorem c2_counterexample :
    (dataVisualUpdate (encodeDoc c2Doc) "Sales.Qty" "Orders.Count").map
      (fun p => decide (p.2 = 1) &&
        (match p.1.filters with
         | some fj => selNameOccurs "Sales.Qty" fj
         | none => false)) = some true := by decide

/-- Witness for the amended C2 on the concrete visual: the prototype
query, projections and column properties of the rewritten config are
clear of the old qualifier. -/
theorem c2_amended_witness :
    selNamesClear "Sales.Qty" c2DocOut.cfg.prototypeQuery = true ∧
      projectionsClear "Sales.Qty" c2DocOut.cfg = true ∧
      columnPropertiesClear "Sales.Qty" c2DocOut.cfg = true :=
  have h := c2_amended c2Doc c2DocOut "Sales.Qty" "Orders.Count" "Sales" "Orders"
    "Qty" "Count" (by decide) (by decide) (by decide)
  ⟨h.1, h.2.1, h.2.2.1⟩

/-- The removal loop only deletes entries: its result is a sublist of
the input. -/
theorem pruneIter_sublist (a : String) :
    ∀ (fuel : Nat) (frm : List FromEntry) (i : Nat),
      List.Sublist (SQ.pruneIter frm a i fuel) frm := by
  intro fuel
  induction fuel with
  | zero => intro frm i; exact List.Sublist.refl _
  | succ n ih =>
    intro frm i
    unfold SQ.pruneIter
    cases hfi : frm[i]? with
    | none => exact List.Sublist.refl _
    | some t =>
      simp only []
      by_cases ht : (t.name == a) = true
      · rw [if_pos ht]
        exact (ih (frm.erase t) (i + 1)).trans (List.erase_sublist t frm)
      · rw [if_neg ht]
        exact ih frm (i + 1)

/-- `_cleanup_tables` only rewrites `From`: the `Where` clause is
unchanged. -/
theorem cleanupTables_whr (q : SQ) (tfOld tableOld : String) :
    (SQ.cleanupTables q tfOld tableOld).whr = q.whr := by
  unfold SQ.cleanupTables
  simp only []
  split
  · split
    · rfl
    · rfl
  · rfl

/-- `_cleanup_tables` only rewrites `From`: the `Select` clause is
unchanged. -/
theorem cleanupTables_sel (q : SQ) (tfOld tableOld : String) :
    (SQ.cleanupTables q tfOld tableOld).sel = q.sel := by
  unfold SQ.cleanupTables
  simp only []
  split
  · split
    · rfl
    · rfl
  · rfl

/-- Every `From` entry surviving `_cleanup_tables` was already present. -/
theorem cleanupTables_frm_mem (q : SQ) (tfOld tableOld : String) :
    ∀ e ∈ (SQ.cleanupTables q tfOld tableOld).frm, e ∈ q.frm := by
  intro e he
  unfold SQ.cleanupTables at he
  simp only [] at he
  split at he
  · split at he
    · exact (pruneIter_sublist _ _ _ _).subset he
    · exact he
  · exact he

/-- Alias generation succeeds whenever no existing alias is the empty
string (Python only raises there, on `int("")`). -/
theorem generateTableAlias_isSome (frm : List FromEntry) (tableNew : String)
    (h : ∀ e ∈ frm, ¬ e.name = "") :
    (SQ.generateTableAlias frm tableNew).isSome = true := by
  unfold SQ.generateTableAlias
  simp only []
  have hno : (((SQ.returnFromTables frm).filter
      (fun n => SQ.strTake1 n == SQ.strTake1Lower tableNew)).any
        (fun n => n.isEmpty)) = false := by
    rw [List.any_eq_false]
    intro n hn
    have hn2 : n ∈ SQ.returnFromTables frm := List.mem_of_mem_filter hn
    unfold SQ.returnFromTables at hn2
    obtain ⟨e, he, rfl⟩ := List.mem_map.mp hn2
    have he2 := h e he
    simpa [String.isEmpty_iff] using he2
  rw [hno]
  simp only [Bool.false_eq_true, if_false]
  split
  · rfl
  · rfl

/-- Alias resolution succeeds whenever no existing alias is the empty
string. -/
theorem resolveNewAlias_isSome (frm : List FromEntry) (tableNew : String)
    (h : ∀ e ∈ frm, ¬ e.name = "") :
    (SQ.resolveNewAlias frm tableNew).isSome = true := by
  have hg := generateTableAlias_isSome frm tableNew h
  unfold SQ.resolveNewAlias
  simp only []
  cases hga : SQ.generateTableAlias frm tableNew with
  | none => rw [hga] at hg; exact absurd hg (by simp)
  | some g =>
    cases hra : SQ.returnFromTableAlias frm tableNew with
    | none => simp
    | some a => by_cases hie : a.isEmpty = true <;> simp [hie]

/-- C6.  The semantic rewriter is total on queries without a populated
`Where` block: with every `From` alias a non-empty string and `Where`
absent or empty, every step is a no-op when its pattern is absent and no
step raises — in particular a missing `Where`, a missing `OrderBy` and
an absent alias (which is freshly generated) are safe.  (The claim's
"in particular" cases — a `Where` condition without a `Property` node,
and a `selects` list with no entry matching the old `queryName` — do
raise; see the counterexample.) -/
theorem c6_theorem (q : SQ) (tfOld tfNew tableOld tableNew fOld fNew : String)
    (hfrm : ∀ e ∈ q.frm, ¬ e.name = "")
    (hwhr : q.whr = none ∨ q.whr = some []) :
    (SQ.updateFields q tfOld tfNew tableOld tableNew fOld fNew).isSome = true := by
  unfold SQ.updateFields
  simp only []
  have hmem : ∀ e ∈ (SQ.cleanupTables q tfOld tableOld).frm, ¬ e.name = "" :=
    fun e he => hfrm e (cleanupTables_frm_mem q tfOld tableOld e he)
  have hres := resolveNewAlias_isSome (SQ.cleanupTables q tfOld tableOld).frm tableNew hmem
  cases hr : SQ.resolveNewAlias (SQ.cleanupTables q tfOld tableOld).frm tableNew with
  | none => rw [hr] at hres; exact absurd hres (by simp)
  | some p =>
    obtain ⟨aliasNew, frm2⟩ := p
    rw [cleanupTables_whr]
    rcases hwhr with h | h <;> rw [h] <;> rfl

/-- Witness for C6 on the concrete safe query (no `Where`, no `OrderBy`,
no alias for either table). -/
theorem c6_theorem_witness :
    (SQ.updateFields c6SafeQuery "Sales.Qty" "Orders.Count" "Sales" "Orders"
      "Qty" "Count").isSome = true :=
  c6_theorem c6SafeQuery "Sales.Qty" "Orders.Count" "Sales" "Orders" "Qty" "Count"
    (by
      intro e he
      rw [show c6SafeQuery.frm = [⟨"c", "Customers", 0⟩] from rfl] at he
      simp only [List.mem_singleton] at he
      subst he
      decide)
    (Or.inl rfl)

/-- C10, amended: the member loop emits the original members in order
with only `SecurityBindings` skipped — the output's name sequence is the
input's with `SecurityBindings` filtered out, every non-layout,
non-binding member is copied verbatim, every member named
`Report/Layout` carries the re-serialised tree (UTF-16LE), and no output
member is named `SecurityBindings` (P7).  The temp archive, however, is
not derived "beside the original": its path is relative to the working
directory (see the counterexample). -/
theorem c10_amended (members : List (String × ZC)) (L : Layout) :
    (writeMembers members L).map Prod.fst =
        (members.map Prod.fst).filter (fun n => !(n == "SecurityBindings")) ∧
      (∀ m ∈ members, ¬ m.1 = "Report/Layout" → ¬ m.1 = "SecurityBindings" →
        m ∈ writeMembers members L) ∧
      (∀ x ∈ writeMembers members L, x.1 = "Report/Layout" →
        x.2 = ZC.layoutUtf16 L) ∧
      (∀ x ∈ writeMembers members L, ¬ x.1 = "SecurityBindings") := by
  induction members with
  | nil => exact ⟨rfl, by intro m hm; simp at hm, by intro x hx; simp [writeMembers] at hx,
      by intro x hx; simp [writeMembers] at hx⟩
  | cons m ms ih =>
    obtain ⟨ih1, ih2, ih3, ih4⟩ := ih
    by_cases hrl : (m.1 == "Report/Layout") = true
    · have hrl' : m.1 = "Report/Layout" := by simpa using hrl
      have hsb : ¬ m.1 = "SecurityBindings" := by rw [hrl']; decide
      refine ⟨?_, ?_, ?_, ?_⟩
      · simp only [writeMembers, List.filterMap_cons, hrl, List.map_cons, List.filter_cons]
        rw [show (!(m.1 == "SecurityBindings")) = true by simp [hsb]]
        simpa [writeMembers] using ih1
      · intro x hx hx1 hx2
        rcases List.mem_cons.mp hx with h | h
        · exact absurd (h ▸ hrl') hx1
        · have := ih2 x h hx1 hx2
          simp only [writeMembers, List.filterMap_cons, hrl] at *
          exact List.mem_cons_of_mem _ this
      · intro x hx hx1
        simp only [writeMembers, List.filterMap_cons, hrl] at hx
        rcases List.mem_cons.mp hx with h | h
        · rw [h]
        · exact ih3 x h hx1
      · intro x hx
        simp only [writeMembers, List.filterMap_cons, hrl] at hx
        rcases List.mem_cons.mp hx with h | h
        · rw [h]; exact hsb
        · exact ih4 x h
    · by_cases hsb : (m.1 == "SecurityBindings") = true
      · have hsb' : m.1 = "SecurityBindings" := by simpa using hsb
        have hrl2 : ¬ m.1 = "Report/Layout" := by simpa using hrl
        refine ⟨?_, ?_, ?_, ?_⟩
        · simp [writeMembers, List.filterMap_cons, List.filter_cons, hrl2, hsb']
          simpa [writeMembers] using ih1
        · intro x hx hx1 hx2
          rcases List.mem_cons.mp hx with h | h
          · exact absurd (h ▸ hsb') hx2
          · have := ih2 x h hx1 hx2
            simp only [writeMembers, List.filterMap_cons, hrl, hsb] at *
            exact this
        · intro x hx hx1
          simp only [writeMembers, List.filterMap_cons, hrl, hsb] at hx
          exact ih3 x hx hx1
        · intro x hx
          simp only [writeMembers, List.filterMap_cons, hrl, hsb] at hx
          exact ih4 x hx
      · have hsb2 : ¬ m.1 = "SecurityBindings" := by simpa using hsb
        have hrl2 : ¬ m.1 = "Report/Layout" := by simpa using hrl
        refine ⟨?_, ?_, ?_, ?_⟩
        · simp [writeMembers, List.filterMap_cons, List.filter_cons, hrl2, hsb2]
          simpa [writeMembers] using ih1
        · intro x hx hx1 hx2
          rcases List.mem_cons.mp hx with h | h
          · subst h
            simp only [writeMembers, List.filterMap_cons, hrl, hsb]
            exact List.mem_cons_self _ _
          · have := ih2 x h hx1 hx2
            simp only [writeMembers, List.filterMap_cons, hrl, hsb]
            exact List.mem_cons_of_mem _ this
        · intro x hx hx1
          simp only [writeMembers, List.filterMap_cons, hrl, hsb] at hx
          rcases List.mem_cons.mp hx with h | h
          · subst h; exact absurd hx1 (by simpa using hrl)
          · exact ih3 x h hx1
        · intro x hx
          simp only [writeMembers, List.filterMap_cons, hrl, hsb] at hx
          rcases List.mem_cons.mp hx with h | h
          · subst h; simpa using hsb
          · exact ih4 x h

/-- Witness for the amended C10 on the concrete member list with a
`SecurityBindings` member. -/
theorem c10_amended_witness :
    (writeMembers c10Members tidyLayout).map Prod.fst =
        ["Version", "Report/Layout", "[Content_Types].xml"] ∧
      ("Version", ZC.raw "v") ∈ writeMembers c10Members tidyLayout := by
  have h := c10_amended c10Members tidyLayout
  exact ⟨by decide, h.2.1 ("Version", ZC.raw "v") (by decide) (by decide) (by decide)⟩

/-- Mapping a function that fixes every element of a list is the
identity. -/
theorem listMapFixed {α : Type} (l : List α) (f : α → α)
    (h : ∀ x ∈ l, f x = x) : l.map f = l := by
  induction l with
  | nil => rfl
  | cons x xs ih =>
    rw [List.map_cons, h x (List.mem_cons_self x xs),
      ih (fun y hy => h y (List.mem_cons_of_mem x hy))]

/-- Pointwise-equal functions give equal `filterMap`s. -/
theorem listFilterMapCongr {α β : Type} (l : List α) (f g : α → Option β)
    (h : ∀ x ∈ l, f x = g x) : l.filterMap f = l.filterMap g := by
  induction l with
  | nil => rfl
  | cons x xs ih =>
    rw [List.filterMap_cons, List.filterMap_cons, h x (List.mem_cons_self x xs),
      ih (fun y hy => h y (List.mem_cons_of_mem x hy))]

/-- `find?` by key over a list whose values were mapped. -/
theorem findMapValues (l : List (String × J)) (k : String) (f : J → J) :
    (((l.map (fun kv => (kv.1, f kv.2))).find? (fun kv => kv.1 == k)).map (·.2)) =
    ((l.find? (fun kv => kv.1 == k)).map (·.2)).map f := by
  induction l with
  | nil => simp
  | cons kv xs ih =>
    by_cases hk : kv.1 = k
    · simp [List.find?, hk]
    · simp only [List.find?, List.map_cons]
      rw [show (kv.1 == k) = false by simp [hk]]
      simpa using ih

/-- `jMapChildren` maps the value seen at every key. -/
theorem jGet_jMapChildren (f : J → J) (e : J) (k : String) :
    jGet (jMapChildren f e) k = (jGet e k).map f := by
  cases e with
  | obj l => simp only [jGet, jMapChildren]; exact findMapValues l k f
  | s v => rfl
  | i v => rfl
  | b v => rfl
  | null => rfl
  | arr l => rfl

/-- `setKey` maps the value at the key, whether or not it is present. -/
theorem jGet_setKey_get (e : J) (k : String) (v : J) :
    jGet (setKey e k v) k = (jGet e k).map (fun _ => v) := by
  rw [setKey_eq_jModify, jGet_jModify_same]

/-- The children of a `jMapChildren` result are the mapped children. -/
theorem jChildren_jMapChildren (f : J → J) (e : J) :
    jChildren (jMapChildren f e) = (jChildren e).map f := by
  cases e <;> simp [jChildren, jMapChildren, List.map_map, Function.comp]

/-- Rewriting `Expression.SourceRef.Entity` maps the value observed
along that path and nothing else. -/
theorem entityChainMap (w : J) (tn : J) :
    ((jGet (jModify w "Expression" (fun x => jModify x "SourceRef"
        (fun y => setKey y "Entity" tn))) "Expression").bind (fun x =>
      (jGet x "SourceRef").bind (fun y => jGet y "Entity"))) =
    ((jGet w "Expression").bind (fun x =>
      (jGet x "SourceRef").bind (fun y => jGet y "Entity"))).map (fun _ => tn) := by
  rw [jGet_jModify_same]
  cases hx : jGet w "Expression" with
  | none => rfl
  | some x =>
    simp only [Option.map_some', Option.some_bind]
    rw [jGet_jModify_same]
    cases hy : jGet x "SourceRef" with
    | none => rfl
    | some y =>
      simp only [Option.map_some', Option.some_bind]
      rw [jGet_setKey_get]

/-- The entity observations of a select entry after the
entity-then-property `expr` rewrites: every observed entity is replaced
by the new table, position for position. -/
theorem selEntitiesUpd (e : J) (tn fn : J) :
    selExprEntities (jModify (jModify e "expr" (jMapChildren (fun w =>
        jModify w "Expression" (fun x =>
          jModify x "SourceRef" (fun y => setKey y "Entity" tn)))))
      "expr" (jMapChildren (fun w => setKey w "Property" fn))) =
    (selExprEntities e).map (fun _ => tn) := by
  unfold selExprEntities
  rw [jGet_jModify_same, jGet_jModify_same]
  cases hx : jGet e "expr" with
  | none => rfl
  | some ex =>
    simp only [Option.map_some']
    rw [jChildren_jMapChildren, jChildren_jMapChildren, List.filterMap_map,
      List.filterMap_map, List.map_filterMap]
    apply listFilterMapCongr
    intro w _
    simp only [Function.comp]
    rw [show jGet (setKey (jModify w "Expression" (fun x =>
        jModify x "SourceRef" (fun y => setKey y "Entity" tn))) "Property" fn)
          "Expression" =
        jGet (jModify w "Expression" (fun x =>
          jModify x "SourceRef" (fun y => setKey y "Entity" tn))) "Expression" from
      jGet_setKey_ne _ "Property" "Expression" fn (by decide)]
    exact entityChainMap w tn

/-- The property observations of a select entry after the
entity-then-property `expr` rewrites: every observed property is
replaced by the new field, position for position. -/
theorem selPropsUpd (e : J) (tn fn : J) :
    selExprProps (jModify (jModify e "expr" (jMapChildren (fun w =>
        jModify w "Expression" (fun x =>
          jModify x "SourceRef" (fun y => setKey y "Entity" tn)))))
      "expr" (jMapChildren (fun w => setKey w "Property" fn))) =
    (selExprProps e).map (fun _ => fn) := by
  unfold selExprProps
  rw [jGet_jModify_same, jGet_jModify_same]
  cases hx : jGet e "expr" with
  | none => rfl
  | some ex =>
    simp only [Option.map_some']
    rw [jChildren_jMapChildren, jChildren_jMapChildren, List.filterMap_map,
      List.filterMap_map, List.map_filterMap]
    apply listFilterMapCongr
    intro w _
    simp only [Function.comp]
    rw [jGet_setKey_get, jGet_jModify_ne _ "Expression" "Property" _ (by decide)]

/-- `filterMap` of a function that drops every element of a list. -/
theorem listFilterMapNone {α β : Type} (l : List α) (f : α → Option β)
    (h : ∀ x ∈ l, f x = none) : l.filterMap f = [] := by
  induction l with
  | nil => rfl
  | cons x xs ih =>
    rw [List.filterMap_cons, h x (List.mem_cons_self x xs)]
    exact ih (fun y hy => h y (List.mem_cons_of_mem x hy))

/-- An `expr` rewrite guarded by the select filter does not change
whether the entry matches. -/
theorem selMatches_exprIf (old : String) (F : J → J) (x : J) :
    DT.selMatches old (if DT.selMatches old x = true then jModify x "expr" F else x) =
      DT.selMatches old x := by
  by_cases hmx : DT.selMatches old x = true
  · rw [if_pos hmx]
    unfold DT.selMatches
    rw [jGet_jModify_ne x "expr" "queryName" F (by decide)]
  · rw [if_neg hmx]

/-- `_update_selects_tables` on a list with a single matching entry:
the entry's `expr` children get their `Expression.SourceRef.Entity`
assigned, everything else is untouched. -/
theorem updSelectsTables_unique (pre post : List J) (y : J) (old : String) (tn : J)
    (hm : DT.selMatches old y = true)
    (hpre : ∀ x ∈ pre, DT.selMatches old x = false)
    (hpost : ∀ x ∈ post, DT.selMatches old x = false) :
    DT.updSelectsTables (some (pre ++ y :: post)) old tn =
      some (pre ++ (jModify y "expr" (jMapChildren (fun w =>
        jModify w "Expression" (fun x =>
          jModify x "SourceRef" (fun y2 => setKey y2 "Entity" tn))))) :: post) := by
  unfold DT.updSelectsTables
  simp only [Option.map_some', Option.some_inj, List.map_append, List.map_cons]
  rw [listMapFixed pre _ (fun x hx => by rw [if_neg (by simp [hpre x hx])]),
    listMapFixed post _ (fun x hx => by rw [if_neg (by simp [hpost x hx])]),
    if_pos hm]

/-- `_update_selects_fields` on a list with a single matching entry. -/
theorem updSelectsFields_unique (pre post : List J) (y : J) (old : String) (fn : J)
    (hm : DT.selMatches old y = true)
    (hpre : ∀ x ∈ pre, DT.selMatches old x = false)
    (hpost : ∀ x ∈ post, DT.selMatches old x = false) :
    DT.updSelectsFields (some (pre ++ y :: post)) old fn =
      some (pre ++ (jModify y "expr" (jMapChildren (fun w =>
        setKey w "Property" fn))) :: post) := by
  unfold DT.updSelectsFields
  simp only [Option.map_some', Option.some_inj, List.map_append, List.map_cons]
  rw [listMapFixed pre _ (fun x hx => by rw [if_neg (by simp [hpre x hx])]),
    listMapFixed post _ (fun x hx => by rw [if_neg (by simp [hpost x hx])]),
    if_pos hm]

/-- `_update_selects_display_names` on a list with a single matching
entry carrying a display name: the first (only) matching display name
decides, and only the matching entry is renamed. -/
theorem updDisplayNames_unique (pre post : List J) (y : J) (old fOld fNew : String)
    (d : J)
    (hm : DT.selMatches old y = true)
    (hpre : ∀ x ∈ pre, DT.selMatches old x = false)
    (hpost : ∀ x ∈ post, DT.selMatches old x = false)
    (hd : jGet y "displayName" = some d) :
    DT.updDisplayNames (some (pre ++ y :: post)) old fOld fNew =
      some (some (pre ++
        (if d == J.s fOld then setKey y "displayName" (J.s fNew) else y) :: post)) := by
  unfold DT.updDisplayNames
  simp only [Option.getD_some]
  rw [List.filterMap_append, List.filterMap_cons,
    listFilterMapNone pre _ (fun x hx => by rw [if_neg (by simp [hpre x hx])]),
    if_pos hm, hd]
  simp only [List.nil_append]
  by_cases hdo : (d == J.s fOld) = true
  · rw [if_pos hdo, if_pos hdo]
    simp only [Option.map_some', Option.some_inj, List.map_append, List.map_cons]
    rw [listMapFixed pre _ (fun x hx => by rw [if_neg (by simp [hpre x hx])]),
      listMapFixed post _ (fun x hx => by rw [if_neg (by simp [hpost x hx])]),
      if_pos hm]
  · rw [if_neg hdo, if_neg hdo]

/-- `_update_selects_table_fields` (the `queryName` identifier pass) on
a list with a single matching entry. -/
theorem updSelectsQueryNames_unique (pre post : List J) (y : J) (old new : String)
    (hm : DT.selMatches old y = true)
    (hpre : ∀ x ∈ pre, DT.selMatches old x = false)
    (hpost : ∀ x ∈ post, DT.selMatches old x = false) :
    DT.updSelectsQueryNames (some (pre ++ y :: post)) old new =
      some (pre ++ (setKey y "queryName" (J.s new)) :: post) := by
  unfold DT.updSelectsQueryNames
  simp only [Option.map_some', Option.some_inj, List.map_append, List.map_cons]
  rw [listMapFixed pre _ (fun x hx => by rw [if_neg (by simp [hpre x hx])]),
    listMapFixed post _ (fun x hx => by rw [if_neg (by simp [hpost x hx])]),
    if_pos hm]

/-- `selExprEntities` depends only on the `expr` member. -/
theorem selExprEntities_congr (a b : J) (h : jGet a "expr" = jGet b "expr") :
    selExprEntities a = selExprEntities b := by
  unfold selExprEntities
  rw [h]

/-- `selExprProps` depends only on the `expr` member. -/
theorem selExprProps_congr (a b : J) (h : jGet a "expr" = jGet b "expr") :
    selExprProps a = selExprProps b := by
  unfold selExprProps
  rw [h]

/-- C7.  `DataTransforms.update_fields` (visual.py) on a `selects` list
whose unique entry matching the old qualifier carries a display name:
on success the matching entry gets every `expr.*.Expression.SourceRef.Entity`
set to the new table and every `expr.*.Property` set to the new field,
its `displayName` becomes the new field exactly when it equalled the old
field (a customised display name is preserved), the `queryName` — which
every step keys on and which is rewritten last — ends equal to the new
qualifier, and all other entries are untouched. -/
theorem c7_theorem (dt : DT) (pre post : List J) (e d : J)
    (tfOld tfNew tableOld tableNew fOld fNew : String) (dt' : DT)
    (hsels : dt.selects = some (pre ++ e :: post))
    (hm : DT.selMatches tfOld e = true)
    (hpre : ∀ x ∈ pre, DT.selMatches tfOld x = false)
    (hpost : ∀ x ∈ post, DT.selMatches tfOld x = false)
    (hd : jGet e "displayName" = some d)
    (hupd : DT.updateFieldsVisual dt tfOld tfNew tableOld tableNew fOld fNew = some dt') :
    ∃ e', dt'.selects = some (pre ++ e' :: post) ∧
      jGet e' "queryName" = some (J.s tfNew) ∧
      jGet e' "displayName" = some (if d == J.s fOld then J.s fNew else d) ∧
      selExprEntities e' = (selExprEntities e).map (fun _ => J.s tableNew) ∧
      selExprProps e' = (selExprProps e).map (fun _ => J.s fNew) := by
  unfold DT.updateFieldsVisual at hupd
  obtain ⟨os0, hos0, h1⟩ := Option.bind_eq_some.mp hupd
  have key : ∃ sel5, DT.updDisplayNames (DT.updSelectsFields
      (DT.updSelectsTables dt.selects tfOld (J.s tableNew)) tfOld (J.s fNew))
      tfOld fOld fNew = some sel5 ∧
      dt'.selects = DT.updSelectsQueryNames sel5 tfOld tfNew := by
    simp only [] at h1
    cases hdpm : Option.map (fun x => x.2) (List.find? (fun kv => kv.1 == "dataPoint")
        ((DT.updObjectsMetadata (some os0) tfOld tfNew).getD [])) with
    | none =>
      rw [hdpm] at h1
      obtain ⟨y, hy, h2⟩ := Option.bind_eq_some.mp h1
      obtain ⟨sel5, hsel5, h3⟩ := Option.bind_eq_some.mp h2
      simp only [pure, Option.some_inj] at h3
      exact ⟨sel5, hsel5, by rw [← h3]⟩
    | some dp =>
      rw [hdpm] at h1
      obtain ⟨y, hy, h2⟩ := Option.bind_eq_some.mp h1
      obtain ⟨sel5, hsel5, h3⟩ := Option.bind_eq_some.mp h2
      simp only [pure, Option.some_inj] at h3
      exact ⟨sel5, hsel5, by rw [← h3]⟩
  obtain ⟨sel5, hsel5, hdsel⟩ := key
  rw [hsels] at hsel5
  rw [updSelectsTables_unique pre post e tfOld (J.s tableNew) hm hpre hpost] at hsel5
  have hm3 : DT.selMatches tfOld (jModify e "expr" (jMapChildren (fun w =>
      jModify w "Expression" (fun x =>
        jModify x "SourceRef" (fun y2 => setKey y2 "Entity" (J.s tableNew)))))) = true := by
    unfold DT.selMatches at hm ⊢
    rw [jGet_jModify_ne e "expr" "queryName" _ (by decide)]
    exact hm
  rw [updSelectsFields_unique pre post _ tfOld (J.s fNew) hm3 hpre hpost] at hsel5
  have hm4 : DT.selMatches tfOld (jModify (jModify e "expr" (jMapChildren (fun w =>
      jModify w "Expression" (fun x =>
        jModify x "SourceRef" (fun y2 => setKey y2 "Entity" (J.s tableNew))))))
      "expr" (jMapChildren (fun w => setKey w "Property" (J.s fNew)))) = true := by
    unfold DT.selMatches at hm3 ⊢
    rw [jGet_jModify_ne _ "expr" "queryName" _ (by decide)]
    exact hm3
  have hd4 : jGet (jModify (jModify e "expr" (jMapChildren (fun w =>
      jModify w "Expression" (fun x =>
        jModify x "SourceRef" (fun y2 => setKey y2 "Entity" (J.s tableNew))))))
      "expr" (jMapChildren (fun w => setKey w "Property" (J.s fNew)))) "displayName" =
      some d := by
    rw [jGet_jModify_ne _ "expr" "displayName" _ (by decide),
      jGet_jModify_ne e "expr" "displayName" _ (by decide)]
    exact hd
  rw [updDisplayNames_unique pre post _ tfOld fOld fNew d hm4 hpre hpost hd4] at hsel5
  simp only [Option.some_inj] at hsel5
  subst hsel5
  have hm5 : DT.selMatches tfOld (if d == J.s fOld then
      setKey (jModify (jModify e "expr" (jMapChildren (fun w =>
        jModify w "Expression" (fun x =>
          jModify x "SourceRef" (fun y2 => setKey y2 "Entity" (J.s tableNew))))))
        "expr" (jMapChildren (fun w => setKey w "Property" (J.s fNew))))
        "displayName" (J.s fNew)
      else jModify (jModify e "expr" (jMapChildren (fun w =>
        jModify w "Expression" (fun x =>
          jModify x "SourceRef" (fun y2 => setKey y2 "Entity" (J.s tableNew))))))
        "expr" (jMapChildren (fun w => setKey w "Property" (J.s fNew)))) = true := by
    by_cases hdo : (d == J.s fOld) = true
    · rw [if_pos hdo]
      unfold DT.selMatches at hm4 ⊢
      rw [jGet_setKey_ne _ "displayName" "queryName" _ (by decide)]
      exact hm4
    · rw [if_neg hdo]
      exact hm4
  refine ⟨setKey (if d == J.s fOld then
      setKey (jModify (jModify e "expr" (jMapChildren (fun w =>
        jModify w "Expression" (fun x =>
          jModify x "SourceRef" (fun y2 => setKey y2 "Entity" (J.s tableNew))))))
        "expr" (jMapChildren (fun w => setKey w "Property" (J.s fNew))))
        "displayName" (J.s fNew)
      else jModify (jModify e "expr" (jMapChildren (fun w =>
        jModify w "Expression" (fun x =>
          jModify x "SourceRef" (fun y2 => setKey y2 "Entity" (J.s tableNew))))))
        "expr" (jMapChildren (fun w => setKey w "Property" (J.s fNew))))
      "queryName" (J.s tfNew), ?_, ?_, ?_, ?_, ?_⟩
  · rw [hdsel]
    exact updSelectsQueryNames_unique pre post _ tfOld tfNew hm5 hpre hpost
  · rw [jGet_setKey_get]
    have hq5 : jGet (if d == J.s fOld then
        setKey (jModify (jModify e "expr" (jMapChildren (fun w =>
          jModify w "Expression" (fun x =>
            jModify x "SourceRef" (fun y2 => setKey y2 "Entity" (J.s tableNew))))))
          "expr" (jMapChildren (fun w => setKey w "Property" (J.s fNew))))
          "displayName" (J.s fNew)
        else jModify (jModify e "expr" (jMapChildren (fun w =>
          jModify w "Expression" (fun x =>
            jModify x "SourceRef" (fun y2 => setKey y2 "Entity" (J.s tableNew))))))
          "expr" (jMapChildren (fun w => setKey w "Property" (J.s fNew))))
        "queryName" = some (J.s tfOld) := by
      have h5 := hm5
      unfold DT.selMatches at h5
      simpa using h5
    rw [hq5]
    rfl
  · rw [jGet_setKey_ne _ "queryName" "displayName" _ (by decide)]
    by_cases hdo : (d == J.s fOld) = true
    · rw [if_pos hdo, if_pos hdo, jGet_setKey_get, hd4]
      rfl
    · rw [if_neg hdo, if_neg hdo]
      exact hd4
  · have hx1 : jGet (setKey (if d == J.s fOld then
        setKey (jModify (jModify e "expr" (jMapChildren (fun w =>
          jModify w "Expression" (fun x =>
            jModify x "SourceRef" (fun y2 => setKey y2 "Entity" (J.s tableNew))))))
          "expr" (jMapChildren (fun w => setKey w "Property" (J.s fNew))))
          "displayName" (J.s fNew)
        else jModify (jModify e "expr" (jMapChildren (fun w =>
          jModify w "Expression" (fun x =>
            jModify x "SourceRef" (fun y2 => setKey y2 "Entity" (J.s tableNew))))))
          "expr" (jMapChildren (fun w => setKey w "Property" (J.s fNew))))
        "queryName" (J.s tfNew)) "expr" =
        jGet (jModify (jModify e "expr" (jMapChildren (fun w =>
          jModify w "Expression" (fun x =>
            jModify x "SourceRef" (fun y2 => setKey y2 "Entity" (J.s tableNew))))))
          "expr" (jMapChildren (fun w => setKey w "Property" (J.s fNew)))) "expr" := by
      rw [jGet_setKey_ne _ "queryName" "expr" _ (by decide)]
      by_cases hdo : (d == J.s fOld) = true
      · rw [if_pos hdo, jGet_setKey_ne _ "displayName" "expr" _ (by decide)]
      · rw [if_neg hdo]
    rw [selExprEntities_congr _ _ hx1]
    exact selEntitiesUpd e (J.s tableNew) (J.s fNew)
  · have hx2 : jGet (setKey (if d == J.s fOld then
        setKey (jModify (jModify e "expr" (jMapChildren (fun w =>
          jModify w "Expression" (fun x =>
            jModify x "SourceRef" (fun y2 => setKey y2 "Entity" (J.s tableNew))))))
          "expr" (jMapChildren (fun w => setKey w "Property" (J.s fNew))))
          "displayName" (J.s fNew)
        else jModify (jModify e "expr" (jMapChildren (fun w =>
          jModify w "Expression" (fun x =>
            jModify x "SourceRef" (fun y2 => setKey y2 "Entity" (J.s tableNew))))))
          "expr" (jMapChildren (fun w => setKey w "Property" (J.s fNew))))
        "queryName" (J.s tfNew)) "expr" =
        jGet (jModify (jModify e "expr" (jMapChildren (fun w =>
          jModify w "Expression" (fun x =>
            jModify x "SourceRef" (fun y2 => setKey y2 "Entity" (J.s tableNew))))))
          "expr" (jMapChildren (fun w => setKey w "Property" (J.s fNew)))) "expr" := by
      rw [jGet_setKey_ne _ "queryName" "expr" _ (by decide)]
      by_cases hdo : (d == J.s fOld) = true
      · rw [if_pos hdo, jGet_setKey_ne _ "displayName" "expr" _ (by decide)]
      · rw [if_neg hdo]
    rw [selExprProps_congr _ _ hx2]
    exact selPropsUpd e (J.s tableNew) (J.s fNew)

/-- Witness for C7 on scenario 4's concrete data-transforms document:
the single matching select keyed `Sales.Qty` with display name `Qty`
ends with queryName `Orders.Count`, display name `Count`, entity
`Orders` and property `Count`. -/
theorem c7_theorem_witness :
    ∃ e', c7DtOut.selects = some ([] ++ e' :: []) ∧
      jGet e' "queryName" = some (J.s "Orders.Count") ∧
      jGet e' "displayName" =
        some (if J.s "Qty" == J.s "Qty" then J.s "Count" else J.s "Qty") ∧
      selExprEntities e' =
        (selExprEntities (J.obj [("queryName", J.s "Sales.Qty"),
          ("displayName", J.s "Qty"),
          ("expr", J.obj [("Measure", J.obj [
            ("Expression", J.obj [("SourceRef", J.obj [("Entity", J.s "Sales")])]),
            ("Property", J.s "Qty")])])])).map (fun _ => J.s "Orders") ∧
      selExprProps e' =
        (selExprProps (J.obj [("queryName", J.s "Sales.Qty"),
          ("displayName", J.s "Qty"),
          ("expr", J.obj [("Measure", J.obj [
            ("Expression", J.obj [("SourceRef", J.obj [("Entity", J.s "Sales")])]),
            ("Property", J.s "Qty")])])])).map (fun _ => J.s "Count") :=
  c7_theorem c7Dt [] []
    (J.obj [("queryName", J.s "Sales.Qty"), ("displayName", J.s "Qty"),
      ("expr", J.obj [("Measure", J.obj [
        ("Expression", J.obj [("SourceRef", J.obj [("Entity", J.s "Sales")])]),
        ("Property", J.s "Qty")])])])
    (J.s "Qty") "Sales.Qty" "Orders.Count" "Sales" "Orders" "Qty" "Count" c7DtOut
    (by decide) (by decide)
    (fun x hx => absurd hx (List.not_mem_nil x))
    (fun x hx => absurd hx (List.not_mem_nil x))
    (by decide) (by decide)

/-- Decimal digit characters are digits. -/
theorem digitCharIsDigit (d : Nat) (h : d < 10) : (Nat.digitChar d).isDigit = true := by
  interval_cases d <;> decide

/-- Value of a decimal digit character. -/
theorem digitCharVal (d : Nat) (h : d < 10) : (Nat.digitChar d).toNat - 48 = d := by
  interval_cases d <;> decide

/-- `Nat.toDigitsCore` only prepends to its accumulator. -/
theorem toDigitsCore_append :
    ∀ (fuel n : Nat) (acc : List Char),
      Nat.toDigitsCore 10 fuel n acc = Nat.toDigitsCore 10 fuel n [] ++ acc := by
  intro fuel
  induction fuel with
  | zero => intro n acc; rfl
  | succ f ih =>
    intro n acc
    unfold Nat.toDigitsCore
    simp only []
    by_cases h0 : n / 10 = 0
    · rw [if_pos h0, if_pos h0]
      rfl
    · rw [if_neg h0, if_neg h0, ih (n / 10) [Nat.digitChar (n % 10)],
        ih (n / 10) (Nat.digitChar (n % 10) :: acc)]
      simp

/-- Every character produced by `Nat.toDigitsCore` is a digit. -/
theorem toDigitsCore_digits :
    ∀ (fuel n : Nat), ∀ c ∈ Nat.toDigitsCore 10 fuel n [], c.isDigit = true := by
  intro fuel
  induction fuel with
  | zero => intro n c hc; exact absurd hc (List.not_mem_nil c)
  | succ f ih =>
    intro n c hc
    unfold Nat.toDigitsCore at hc
    simp only [] at hc
    by_cases h0 : n / 10 = 0
    · rw [if_pos h0] at hc
      rcases List.mem_cons.mp hc with h | h
      · subst h; exact digitCharIsDigit _ (Nat.mod_lt n (by norm_num))
      · exact absurd h (List.not_mem_nil c)
    · rw [if_neg h0, toDigitsCore_append] at hc
      rcases List.mem_append.mp hc with h | h
      · exact ih (n / 10) c h
      · rcases List.mem_cons.mp h with h2 | h2
        · subst h2; exact digitCharIsDigit _ (Nat.mod_lt n (by norm_num))
        · exact absurd h2 (List.not_mem_nil c)

/-- `foldDigits` of a singleton. -/
theorem foldDigits_single (c : Char) : SQ.foldDigits [c] = c.toNat - 48 := by
  unfold SQ.foldDigits
  simp

/-- `foldDigits` of a list with one more digit appended. -/
theorem foldDigits_append_last (l : List Char) (c : Char) :
    SQ.foldDigits (l ++ [c]) = SQ.foldDigits l * 10 + (c.toNat - 48) := by
  unfold SQ.foldDigits
  rw [List.foldl_append]
  simp

/-- `Nat.toDigitsCore` round-trips through `foldDigits` when the fuel
suffices. -/
theorem foldDigits_toDigitsCore :
    ∀ (fuel : Nat), ∀ n, n < fuel → SQ.foldDigits (Nat.toDigitsCore 10 fuel n []) = n := by
  intro fuel
  induction fuel with
  | zero => intro n hn; exact absurd hn (Nat.not_lt_zero n)
  | succ f ih =>
    intro n hn
    unfold Nat.toDigitsCore
    simp only []
    by_cases h0 : n / 10 = 0
    · rw [if_pos h0, foldDigits_single, digitCharVal _ (Nat.mod_lt n (by norm_num))]
      have h10 : n < 10 := by omega
      exact Nat.mod_eq_of_lt h10
    · rw [if_neg h0, toDigitsCore_append, foldDigits_append_last,
        digitCharVal _ (Nat.mod_lt n (by norm_num))]
      have hmod := Nat.div_add_mod n 10
      have hsmall : n / 10 < n := Nat.div_lt_self (by omega) (by norm_num)
      rw [ih (n / 10) (by omega)]
      omega

/-- `foldDigits`'s fold is monotone in its starting value. -/
theorem foldDigits_start_mono :
    ∀ (l : List Char) (a b : Nat), a ≤ b →
      l.foldl (fun x c => x * 10 + (c.toNat - 48)) a ≤
        l.foldl (fun x c => x * 10 + (c.toNat - 48)) b := by
  intro l
  induction l with
  | nil => intro a b h; exact h
  | cons c cs ih =>
    intro a b h
    simp only [List.foldl_cons]
    exact ih _ _ (by omega)

/-- Prepending a character cannot decrease `foldDigits`. -/
theorem foldDigits_cons_ge (c : Char) (l : List Char) :
    SQ.foldDigits l ≤ SQ.foldDigits (c :: l) := by
  unfold SQ.foldDigits
  simp only [List.foldl_cons]
  exact foldDigits_start_mono l 0 _ (Nat.zero_le _)

/-- The starting value never exceeds a `foldl Nat.max`. -/
theorem foldl_max_init : ∀ (l : List Nat) (a : Nat), a ≤ l.foldl Nat.max a := by
  intro l
  induction l with
  | nil => intro a; exact Nat.le_refl a
  | cons y ys ih =>
    intro a
    calc a ≤ Nat.max a y := Nat.le_max_left a y
    _ ≤ ys.foldl Nat.max (Nat.max a y) := ih _

/-- Every member of a list is bounded by its `foldl Nat.max`. -/
theorem le_foldl_max :
    ∀ (l : List Nat) (a x : Nat), x ∈ l → x ≤ l.foldl Nat.max a := by
  intro l
  induction l with
  | nil => intro a x hx; exact absurd hx (List.not_mem_nil x)
  | cons y ys ih =>
    intro a x hx
    rcases List.mem_cons.mp hx with h | h
    · subst h
      calc x ≤ Nat.max a x := Nat.le_max_right a x
      _ ≤ ys.foldl Nat.max (Nat.max a x) := foldl_max_init ys _
    · exact ih _ x h

/-- `digitsOnly` fixes a list of digit characters. -/
theorem digitsOnly_fixed (l : List Char) (h : ∀ c ∈ l, c.isDigit = true) :
    SQ.digitsOnly l = l := by
  unfold SQ.digitsOnly
  exact listMapFixed l _ (fun c hc => by rw [if_pos (h c hc)])

/-- String structure eta. -/
theorem stringMkData (s : String) : String.mk s.data = s := by
  cases s
  rfl

/-- Appending strings appends their character lists. -/
theorem stringDataAppend (a b : String) : (a ++ b).data = a.data ++ b.data := by
  cases a
  cases b
  rfl

/-- `s[:1]` of a string of at most one character is the string itself. -/
theorem strTake1_short (s : String) (h : s.data.length ≤ 1) : SQ.strTake1 s = s := by
  unfold SQ.strTake1
  rw [List.take_of_length_le h, stringMkData]

/-- `s[:1].lower()` has at most one character. -/
theorem strTake1Lower_len (t : String) : (SQ.strTake1Lower t).data.length ≤ 1 := by
  unfold SQ.strTake1Lower
  rw [show (String.mk ((t.data.take 1).map Char.toLower)).data =
    (t.data.take 1).map Char.toLower from rfl]
  rw [List.length_map, List.length_take]
  omega

/-- `s[:1]` of a cons-headed string is its first character. -/
theorem strTake1_cons (c : Char) (l : List Char) :
    SQ.strTake1 (String.mk (c :: l)) = String.mk [c] := rfl

/-- `Nat.toDigitsCore` with positive fuel emits at least one digit. -/
theorem toDigitsCore_ne_nil (f n : Nat) :
    ¬ Nat.toDigitsCore 10 (f + 1) n [] = [] := by
  unfold Nat.toDigitsCore
  simp only []
  by_cases h0 : n / 10 = 0
  · rw [if_pos h0]
    simp
  · rw [if_neg h0, toDigitsCore_append]
    simp

/-- The generated alias is distinct from every existing `From` alias:
aliases starting with a different character differ in their first
character, and aliases starting with the same character have a strictly
smaller numeric value than the fresh suffix. -/
theorem generateTableAlias_fresh (frm : List FromEntry) (tableNew g : String)
    (hnonempty : ∀ e ∈ frm, ¬ e.name = "")
    (hg : SQ.generateTableAlias frm tableNew = some g) :
    ∀ e ∈ frm, ¬ e.name = g := by
  intro e he heq
  unfold SQ.generateTableAlias at hg
  simp only [] at hg
  by_cases hany : (((SQ.returnFromTables frm).filter
      (fun n => SQ.strTake1 n == SQ.strTake1Lower tableNew)).any
        (fun n => n.isEmpty)) = true
  · rw [if_pos hany] at hg
    exact absurd hg (by simp)
  · rw [if_neg hany] at hg
    have hmemname : e.name ∈ SQ.returnFromTables frm := by
      unfold SQ.returnFromTables
      exact List.mem_map.mpr ⟨e, he, rfl⟩
    by_cases hemp : (((SQ.returnFromTables frm).filter
        (fun n => SQ.strTake1 n == SQ.strTake1Lower tableNew)).isEmpty) = true
    · rw [if_pos hemp] at hg
      simp only [Option.some_inj] at hg
      have htake : (SQ.strTake1 e.name == SQ.strTake1Lower tableNew) = true := by
        rw [heq, ← hg, strTake1_short _ (strTake1Lower_len tableNew)]
        simp
      have hfmem : e.name ∈ (SQ.returnFromTables frm).filter
          (fun n => SQ.strTake1 n == SQ.strTake1Lower tableNew) :=
        List.mem_filter.mpr ⟨hmemname, htake⟩
      rw [List.isEmpty_iff] at hemp
      rw [hemp] at hfmem
      exact absurd hfmem (List.not_mem_nil _)
    · rw [if_neg hemp] at hg
      simp only [Option.some_inj] at hg
      set M := (((SQ.returnFromTables frm).filter
        (fun n => SQ.strTake1 n == SQ.strTake1Lower tableNew)).map SQ.pyInt).foldl
          Nat.max 0 with hM
      -- the filtered list is non-empty and all its members are non-empty strings
      obtain ⟨n0, hn0⟩ : ∃ n0, n0 ∈ (SQ.returnFromTables frm).filter
          (fun n => SQ.strTake1 n == SQ.strTake1Lower tableNew) := by
        cases hl : (SQ.returnFromTables frm).filter
            (fun n => SQ.strTake1 n == SQ.strTake1Lower tableNew) with
        | nil => rw [List.isEmpty_iff] at hemp; exact absurd hl hemp
        | cons x xs => exact ⟨x, List.mem_cons_self x xs⟩
      -- the candidate character list is a single character
      obtain ⟨c, hc⟩ : ∃ c, (SQ.strTake1Lower tableNew).data = [c] := by
        cases hd : (SQ.strTake1Lower tableNew).data with
        | nil =>
          exfalso
          have hn0f := List.mem_filter.mp hn0
          have hn0name : n0 ∈ SQ.returnFromTables frm := hn0f.1
          obtain ⟨e0, he0, he0n⟩ := List.mem_map.mp hn0name
          have hne0 := hnonempty e0 he0
          have htk : SQ.strTake1 n0 = SQ.strTake1Lower tableNew := by
            simpa using hn0f.2
          cases hn0d : n0.data with
          | nil =>
            apply hne0
            rw [he0n]
            rw [show n0 = String.mk n0.data from (stringMkData n0).symm, hn0d]
          | cons c0 l0 =>
            have htk2 : SQ.strTake1 n0 = String.mk [c0] := by
              rw [show n0 = String.mk n0.data from (stringMkData n0).symm, hn0d]
              exact strTake1_cons c0 l0
            rw [htk2] at htk
            have hcl : ([c0] : List Char) = (SQ.strTake1Lower tableNew).data := by
              rw [← htk]
            rw [hd] at hcl
            exact absurd hcl (by simp)
        | cons c0 l0 =>
          refine ⟨c0, ?_⟩
          have hlen := strTake1Lower_len tableNew
          rw [hd] at hlen
          simp at hlen
          rw [hlen]
      have hgdata : g.data = c :: Nat.toDigitsCore 10 (M + 1 + 1) (M + 1) [] := by
        rw [← hg, stringDataAppend, hc]
        rfl
      have htake : (SQ.strTake1 e.name == SQ.strTake1Lower tableNew) = true := by
        have h1 : SQ.strTake1 e.name = String.mk [c] := by
          have hedata : e.name.data = c :: Nat.toDigitsCore 10 (M + 1 + 1) (M + 1) [] := by
            rw [heq, hgdata]
          unfold SQ.strTake1
          rw [hedata]
          rfl
        rw [h1, ← hc, stringMkData]
        simp
      have hfmem : e.name ∈ (SQ.returnFromTables frm).filter
          (fun n => SQ.strTake1 n == SQ.strTake1Lower tableNew) :=
        List.mem_filter.mpr ⟨hmemname, htake⟩
      have hle : SQ.pyInt e.name ≤ M := by
        rw [hM]
        exact le_foldl_max _ 0 _ (List.mem_map.mpr ⟨e.name, hfmem, rfl⟩)
      have hge : M + 1 ≤ SQ.pyInt e.name := by
        rw [heq]
        unfold SQ.pyInt
        rw [hgdata]
        unfold SQ.digitsOnly
        rw [List.map_cons]
        rw [listMapFixed _ _ (fun x hx => by
          rw [if_pos (toDigitsCore_digits (M + 1 + 1) (M + 1) x hx)])]
        calc M + 1 = SQ.foldDigits (Nat.toDigitsCore 10 (M + 1 + 1) (M + 1) []) :=
          (foldDigits_toDigitsCore (M + 1 + 1) (M + 1) (by omega)).symm
        _ ≤ SQ.foldDigits ((if c.isDigit then c else '0') ::
            Nat.toDigitsCore 10 (M + 1 + 1) (M + 1) []) := foldDigits_cons_ge _ _
      omega

/-- `countName` distributes over append. -/
theorem countName_append (l1 l2 : List FromEntry) (v : J) :
    countName (l1 ++ l2) v = countName l1 v + countName l2 v := by
  unfold countName
  rw [List.filter_append, List.length_append]

/-- `countName` of a value no entry is named after. -/
theorem countName_zero (l : List FromEntry) (v : J)
    (h : ∀ e ∈ l, ¬ J.s e.name = v) : countName l v = 0 := by
  unfold countName
  have : l.filter (fun e => J.s e.name == v) = [] := by
    induction l with
    | nil => rfl
    | cons x xs ih =>
      rw [List.filter_cons, show (J.s x.name == v) = false by
        simp only [beq_eq_false_iff_ne, ne_eq]
        exact h x (List.mem_cons_self x xs)]
      exact ih (fun e he => h e (List.mem_cons_of_mem x he))
  rw [this]
  rfl

/-- A positive `countName` produces a matching entry. -/
theorem countName_pos_mem (l : List FromEntry) (v : J)
    (h : 1 ≤ countName l v) : ∃ e ∈ l, J.s e.name = v := by
  unfold countName at h
  cases hf : l.filter (fun e => J.s e.name == v) with
  | nil => rw [hf] at h; simp at h
  | cons x xs =>
    have hx : x ∈ l.filter (fun e => J.s e.name == v) := by
      rw [hf]
      exact List.mem_cons_self x xs
    have hm := List.mem_filter.mp hx
    exact ⟨x, hm.1, by simpa using hm.2⟩

/-- With duplicate-free aliases, a referenced alias is counted exactly
once. -/
theorem countName_nodup (l : List FromEntry) (v : J)
    (hn : (l.map FromEntry.name).Nodup) (hex : ∃ e ∈ l, J.s e.name = v) :
    countName l v = 1 := by
  induction l with
  | nil =>
    obtain ⟨e, he, _⟩ := hex
    exact absurd he (List.not_mem_nil e)
  | cons x xs ih =>
    rw [List.map_cons, List.nodup_cons] at hn
    unfold countName
    by_cases hx : J.s x.name = v
    · rw [List.filter_cons, show (J.s x.name == v) = true by simp [hx]]
      simp only [List.length_cons, Nat.add_left_eq_self]
      have hnil : xs.filter (fun e => J.s e.name == v) = [] := by
        have hz : ∀ e ∈ xs, ¬ J.s e.name = v := by
          intro e he hc
          apply hn.1
          have : e.name = x.name := by
            have : J.s e.name = J.s x.name := by rw [hc, hx]
            injection this
          rw [← this]
          exact List.mem_map.mpr ⟨e, he, rfl⟩
        have := countName_zero xs v hz
        unfold countName at this
        exact List.length_eq_zero.mp this
      rw [hnil]
      rfl
    · rw [List.filter_cons, show (J.s x.name == v) = false by simp [hx]]
      have hex2 : ∃ e ∈ xs, J.s e.name = v := by
        obtain ⟨e, he, hev⟩ := hex
        rcases List.mem_cons.mp he with h | h
        · exact absurd (h ▸ hev) hx
        · exact ⟨e, h, hev⟩
      have := ih hn.2 hex2
      unfold countName at this
      exact this

/-- `_cleanup_tables` leaves a sublist of the original `From`. -/
theorem cleanupTables_frm_sublist (q : SQ) (tfOld tableOld : String) :
    List.Sublist (SQ.cleanupTables q tfOld tableOld).frm q.frm := by
  unfold SQ.cleanupTables
  simp only []
  split
  · split
    · exact pruneIter_sublist _ _ _ _
    · exact List.Sublist.refl _
  · exact List.Sublist.refl _

/-- Erasing an element the predicate rejects does not change a filter. -/
theorem filterEraseNeg {α : Type} [DecidableEq α] (p : α → Bool) (t : α)
    (l : List α) (h : p t = false) : (l.erase t).filter p = l.filter p := by
  induction l with
  | nil => rfl
  | cons x xs ih =>
    by_cases hx : x = t
    · subst hx
      rw [List.erase_cons, if_pos (by simp : (x == x) = true), List.filter_cons, h]
      simp
    · rw [List.erase_cons, if_neg (by simp [hx] : ¬ (x == t) = true),
        List.filter_cons, List.filter_cons, ih]

/-- The removal loop never changes the count of a value other than the
pruned alias. -/
theorem pruneIter_countName (aOld : String) (v : J) (hv : ¬ v = J.s aOld) :
    ∀ (fuel : Nat) (frm : List FromEntry) (i : Nat),
      countName (SQ.pruneIter frm aOld i fuel) v = countName frm v := by
  intro fuel
  induction fuel with
  | zero => intro frm i; rfl
  | succ n ih =>
    intro frm i
    unfold SQ.pruneIter
    cases hfi : frm[i]? with
    | none => rfl
    | some t =>
      simp only []
      by_cases ht : (t.name == aOld) = true
      · rw [if_pos ht, ih]
        unfold countName
        rw [filterEraseNeg]
        have htn : t.name = aOld := by simpa using ht
        rw [htn]
        simp only [beq_eq_false_iff_ne, ne_eq]
        intro hc
        exact hv hc.symm
      · rw [if_neg ht]
        exact ih frm (i + 1)

/-- `_cleanup_tables` either leaves `From` alone or prunes the old
table's alias, and then only when that alias is referenced by no other
select row. -/
theorem cleanupTables_cases (q : SQ) (tfOld tableOld : String) :
    (SQ.cleanupTables q tfOld tableOld).frm = q.frm ∨
    ∃ aOld, SQ.returnFromTableAlias q.frm tableOld = some aOld ∧
      ((SQ.returnSelectTables q.sel tfOld).contains (J.s aOld)) = false ∧
      (SQ.cleanupTables q tfOld tableOld).frm =
        SQ.pruneIter q.frm aOld 0 (q.frm.length + 1) := by
  unfold SQ.cleanupTables
  simp only []
  cases hro : SQ.returnFromTableAlias q.frm tableOld with
  | none => left; rfl
  | some a =>
    simp only []
    by_cases hc : (!(SQ.returnSelectTables q.sel tfOld).contains (J.s a) &&
        !(SQ.returnWhereTables q.whr a).contains (J.s a)) = true
    · rw [if_pos hc]
      right
      refine ⟨a, rfl, ?_, rfl⟩
      simp only [Bool.and_eq_true, Bool.not_eq_true'] at hc
      exact hc.1
    · rw [if_neg hc]
      left
      rfl

/-- Alias resolution: the alias handed back is counted exactly once in
the resulting `From`, and the count of every value already referenced is
preserved. -/
theorem resolveNewAlias_spec (frm : List FromEntry) (tableNew : String)
    (aliasNew : String) (frm2 : List FromEntry)
    (hnodup : (frm.map FromEntry.name).Nodup)
    (hnonempty : ∀ e ∈ frm, ¬ e.name = "")
    (h : SQ.resolveNewAlias frm tableNew = some (aliasNew, frm2)) :
    countName frm2 (J.s aliasNew) = 1 ∧
    ∀ v, 1 ≤ countName frm v → countName frm2 v = countName frm v := by
  unfold SQ.resolveNewAlias at h
  simp only [] at h
  have hgen : ∀ g, SQ.generateTableAlias frm tableNew = some g →
      (g, frm ++ [⟨g, tableNew, 0⟩]) = (aliasNew, frm2) →
      countName frm2 (J.s aliasNew) = 1 ∧
      ∀ v, 1 ≤ countName frm v → countName frm2 v = countName frm v := by
    intro g hg hpair
    have hfresh := generateTableAlias_fresh frm tableNew g hnonempty hg
    have ha : aliasNew = g := by
      have := congrArg Prod.fst hpair
      simpa using this.symm
    have hf : frm2 = frm ++ [⟨g, tableNew, 0⟩] := by
      have := congrArg Prod.snd hpair
      simpa using this.symm
    subst ha
    subst hf
    constructor
    · rw [countName_append, countName_zero frm (J.s aliasNew) (by
        intro e he hc
        exact hfresh e he (J.s.inj hc))]
      unfold countName
      rw [List.filter_cons]
      simp
    · intro v hv
      rw [countName_append]
      have hone : countName [(⟨aliasNew, tableNew, 0⟩ : FromEntry)] v = 0 := by
        apply countName_zero
        intro e he hc
        rcases List.mem_cons.mp he with h2 | h2
        · obtain ⟨e0, he0, he0v⟩ := countName_pos_mem frm v hv
          apply hfresh e0 he0
          have hse : J.s e0.name = J.s e.name := by rw [he0v, ← hc]
          rw [J.s.inj hse, h2]
        · exact absurd h2 (List.not_mem_nil e)
      rw [hone]
      omega
  cases hra : SQ.returnFromTableAlias frm tableNew with
  | none =>
    rw [hra] at h
    simp only [] at h
    obtain ⟨g, hg, hpair⟩ := Option.map_eq_some'.mp h
    exact hgen g hg hpair
  | some a =>
    rw [hra] at h
    simp only [] at h
    by_cases hie : a.isEmpty = true
    · rw [if_pos hie] at h
      obtain ⟨g, hg, hpair⟩ := Option.map_eq_some'.mp h
      exact hgen g hg hpair
    · rw [if_neg hie] at h
      simp only [Option.some_inj] at h
      have ha : aliasNew = a := by
        have := congrArg Prod.fst h
        simpa using this.symm
      have hf : frm2 = frm := by
        have := congrArg Prod.snd h
        simpa using this.symm
      subst ha
      subst hf
      constructor
      · -- the found alias names an existing entry
        unfold SQ.returnFromTableAlias at hra
        obtain ⟨e0, hfind, hname⟩ := Option.map_eq_some'.mp hra
        have he0 : e0 ∈ frm2 := List.mem_of_find?_eq_some hfind
        exact countName_nodup frm2 (J.s aliasNew) hnodup ⟨e0, he0, by rw [hname]⟩
      · intro v hv
        rfl

/-- Two `jMapChildren` passes compose. -/
theorem jMapChildren_comp (f g : J → J) (e : J) :
    jMapChildren f (jMapChildren g e) = jMapChildren (fun v => f (g v)) e := by
  cases e <;> simp [jMapChildren, List.map_map, Function.comp]

/-- Rewriting `Expression.SourceRef.Source` maps the value observed
along that path and nothing else. -/
theorem sourceChainMap (w : J) (nv : J) :
    ((jGet (SQ.setExprSource nv w) "Expression").bind (fun x =>
      (jGet x "SourceRef").bind (fun y => jGet y "Source"))) =
    ((jGet w "Expression").bind (fun x =>
      (jGet x "SourceRef").bind (fun y => jGet y "Source"))).map (fun _ => nv) := by
  unfold SQ.setExprSource
  rw [jGet_jModify_same]
  cases hx : jGet w "Expression" with
  | none => rfl
  | some x =>
    simp only [Option.map_some', Option.some_bind]
    rw [jGet_jModify_same]
    cases hy : jGet x "SourceRef" with
    | none => rfl
    | some y =>
      simp only [Option.map_some', Option.some_bind]
      rw [jGet_setKey_get]

/-- Every source observed on a select entry after the alias, field and
identifier rewrites is the new alias. -/
theorem entrySourcesUpd (e0 v : J) (aNew fNewV : J) (tfNewS : String)
    (hv : v ∈ SQ.entryExprSources (setKey (jMapChildren (fun w =>
      setKey w "Property" fNewV) (jMapChildren (SQ.setExprSource aNew) e0))
      "Name" (J.s tfNewS))) :
    v = aNew := by
  cases e0 with
  | obj m =>
    rw [show setKey (jMapChildren (fun w => setKey w "Property" fNewV)
        (jMapChildren (SQ.setExprSource aNew) (J.obj m))) "Name" (J.s tfNewS) =
      J.obj (((m.map (fun kv => (kv.1, SQ.setExprSource aNew kv.2))).map
          (fun kv => (kv.1, setKey kv.2 "Property" fNewV))).map
        (fun kv => if kv.1 == "Name" then (kv.1, J.s tfNewS) else kv)) from rfl] at hv
    unfold SQ.entryExprSources at hv
    simp only [jChildren] at hv
    obtain ⟨w, hw, hsrc⟩ := List.mem_filterMap.mp hv
    obtain ⟨kv3, hkv3, hw3⟩ := List.mem_map.mp hw
    obtain ⟨kv2, hkv2, hw2⟩ := List.mem_map.mp hkv3
    obtain ⟨kv1, hkv1, hw1⟩ := List.mem_map.mp hkv2
    obtain ⟨kv0, hkv0, hw0⟩ := List.mem_map.mp hkv1
    subst hw0
    subst hw1
    subst hw2
    subst hw3
    simp only [] at hsrc
    by_cases hnm : (kv0.1 == "Name") = true
    · rw [if_pos hnm] at hsrc
      simp [jGet] at hsrc
    · rw [if_neg hnm] at hsrc
      simp only [] at hsrc
      rw [jGet_setKey_ne _ "Property" "Expression" _ (by decide)] at hsrc
      rw [sourceChainMap] at hsrc
      obtain ⟨u, _, huv⟩ := Option.map_eq_some'.mp hsrc
      exact huv.symm
  | s x => simp [SQ.entryExprSources, jChildren, jMapChildren, setKey] at hv
  | i x => simp [SQ.entryExprSources, jChildren, jMapChildren, setKey] at hv
  | b x => simp [SQ.entryExprSources, jChildren, jMapChildren, setKey] at hv
  | null => simp [SQ.entryExprSources, jChildren, jMapChildren, setKey] at hv
  | arr l => simp [SQ.entryExprSources, jChildren, jMapChildren, setKey] at hv

/-- C3, amended to the clauses the code actually preserves: on a
successful rewrite of a query whose `From` aliases are duplicate-free
and non-empty and whose select entries all carry a `Name` key, if every
source referenced by `Select` matched exactly one `From` alias before
the run, then every source referenced by `Select` still matches exactly
one `From` alias after the run (pruning only removes an alias no other
select row references, the new alias is either an existing one or
freshly generated, and matching rows are rewritten onto the new alias).
For `Where` and `OrderBy` the original claim fails (see the
counterexample: pruning ignores `OrderBy` references entirely). -/
theorem c3_amended (q : SQ) (tfOld tfNew tableOld tableNew fOld fNew : String) (q' : SQ)
    (hnodup : (q.frm.map FromEntry.name).Nodup)
    (hnonempty : ∀ e ∈ q.frm, ¬ e.name = "")
    (hnames : ∀ e ∈ q.sel.getD [], (jGet e "Name").isSome = true)
    (hint : ∀ v ∈ selectSources q, countName q.frm v = 1)
    (hupd : SQ.updateFields q tfOld tfNew tableOld tableNew fOld fNew = some q') :
    ∀ v ∈ selectSources q', countName q'.frm v = 1 := by
  unfold SQ.updateFields at hupd
  simp only [] at hupd
  cases hres : SQ.resolveNewAlias (SQ.cleanupTables q tfOld tableOld).frm tableNew with
  | none => rw [hres] at hupd; exact absurd hupd (by simp)
  | some p =>
    obtain ⟨aliasNew, frm2⟩ := p
    rw [hres] at hupd
    simp only [] at hupd
    cases hwb : SQ.updateWhereBlock (SQ.cleanupTables q tfOld tableOld).whr fOld fNew
        (J.s aliasNew) with
    | none => rw [hwb] at hupd; exact absurd hupd (by simp)
    | some whr7 =>
      rw [hwb] at hupd
      simp only [Option.some_inj] at hupd
      have hsub := cleanupTables_frm_sublist q tfOld tableOld
      have hq1nodup : ((SQ.cleanupTables q tfOld tableOld).frm.map FromEntry.name).Nodup :=
        List.Nodup.sublist (hsub.map FromEntry.name) hnodup
      have hq1ne : ∀ e ∈ (SQ.cleanupTables q tfOld tableOld).frm, ¬ e.name = "" :=
        fun e he => hnonempty e (cleanupTables_frm_mem q tfOld tableOld e he)
      obtain ⟨hcnt1, hpres⟩ :=
        resolveNewAlias_spec _ tableNew aliasNew frm2 hq1nodup hq1ne hres
      intro v hv
      rw [← hupd] at hv ⊢
      simp only [] at hv ⊢
      unfold selectSources at hv
      simp only [] at hv
      rw [cleanupTables_sel] at hv
      cases hsel : q.sel with
      | none =>
        rw [hsel] at hv
        simp [SQ.updateSelectTableAliases, SQ.updateSelectFields,
          SQ.updateSelectTableFields] at hv
      | some l =>
        rw [hsel] at hv
        simp only [SQ.updateSelectTableAliases, SQ.updateSelectFields,
          SQ.updateSelectTableFields, Option.map_some', Option.getD_some] at hv
        obtain ⟨e', he', hv'⟩ := List.mem_flatMap.mp hv
        obtain ⟨e4, he4, hw4⟩ := List.mem_map.mp he'
        obtain ⟨e3, he3, hw3⟩ := List.mem_map.mp he4
        obtain ⟨e0, he0, hw0⟩ := List.mem_map.mp he3
        subst hw0
        subst hw3
        subst hw4
        by_cases hm : (jGet e0 "Name" == some (J.s tfOld)) = true
        · have hname0 : jGet e0 "Name" = some (J.s tfOld) := by simpa using hm
          have hva : v = J.s aliasNew := by
            rw [if_pos hm] at hv'
            have hm3 : (jGet (jMapChildren (SQ.setExprSource (J.s aliasNew)) e0) "Name" ==
                some (J.s tfOld)) = true := by
              rw [jGet_jMapChildren, hname0]
              simp [SQ.setExprSource, jModify]
            rw [if_pos hm3] at hv'
            have hm4 : (jGet (jMapChildren (fun w => setKey w "Property" (J.s fNew))
                (jMapChildren (SQ.setExprSource (J.s aliasNew)) e0)) "Name" ==
                some (J.s tfOld)) = true := by
              rw [jGet_jMapChildren, jGet_jMapChildren, hname0]
              simp [SQ.setExprSource, jModify, setKey]
            rw [if_pos hm4] at hv'
            exact entrySourcesUpd e0 v (J.s aliasNew) (J.s fNew) tfNew hv'
          rw [hva]
          exact hcnt1
        · rw [if_neg hm] at hv'
          rw [if_neg hm] at hv'
          rw [if_neg hm] at hv'
          have hvsel : v ∈ SQ.returnSelectTables q.sel tfOld := by
            unfold SQ.returnSelectTables
            rw [hsel]
            simp only [Option.getD_some]
            apply List.mem_flatMap.mpr
            refine ⟨e0, List.mem_filter.mpr ⟨he0, ?_⟩, hv'⟩
            cases hge : jGet e0 "Name" with
            | none =>
              have := hnames e0 (by rw [hsel]; exact he0)
              rw [hge] at this
              simp at this
            | some w =>
              simp only []
              have hwne : ¬ w = J.s tfOld := by
                intro hc
                apply hm
                rw [hge, hc]
                simp
              simp [hwne]
          have hvsrc : v ∈ selectSources q := by
            unfold selectSources
            rw [hsel]
            exact List.mem_flatMap.mpr ⟨e0, he0, hv'⟩
          have hpre1 : countName q.frm v = 1 := hint v hvsrc
          have hq1count : countName (SQ.cleanupTables q tfOld tableOld).frm v = 1 := by
            rcases cleanupTables_cases q tfOld tableOld with hcc | ⟨aOld, hro, hcont, hcc⟩
            · rw [hcc]
              exact hpre1
            · have hvne : ¬ v = J.s aOld := by
                intro hveq
                have hc2 : (SQ.returnSelectTables q.sel tfOld).contains (J.s aOld) = true :=
                  List.elem_eq_true_of_mem (hveq ▸ hvsel)
                rw [hc2] at hcont
                exact absurd hcont (by simp)
              rw [hcc, pruneIter_countName aOld v hvne]
              exact hpre1
          rw [hpres v (le_of_eq hq1count.symm)]
          exact hq1count

/-- Witness for the amended C3 on the actual-shape query: after the
rewrite the single `Select` source `o` matches exactly one `From`
alias. -/
theorem c3_amended_witness :
    countName c1ActualResult.frm (J.s "o") = 1 :=
  c3_amended c1QueryActual "Sales.Qty" "Orders.Count" "Sales" "Orders" "Qty" "Count"
    c1ActualResult
    (by decide)
    (by
      intro e he
      rw [show c1QueryActual.frm = [⟨"s", "Sales", 0⟩] from rfl] at he
      simp only [List.mem_singleton] at he
      subst he
      decide)
    (by
      intro e he
      rw [show c1QueryActual.sel.getD [] = c1SelectActual from rfl,
        show c1SelectActual = [J.obj [("Name", J.s "Sales.Qty"),
          ("Measure", J.obj [
            ("Expression", J.obj [("SourceRef", J.obj [("Source", J.s "s")])]),
            ("Property", J.s "Qty")])]] from rfl] at he
      simp only [List.mem_singleton] at he
      subst he
      decide)
    (by
      intro v hv
      rw [show selectSources c1QueryActual = [J.s "s"] from by decide] at hv
      simp only [List.mem_singleton] at hv
      subst hv
      decide)
    (by decide)
    (J.s "o") (by decide)
